import Mathlib

/-!
Verification development for the categorization-and-aggregation pipeline of
`finanalyser_mcp/server.py` (the FinancialAnalyzer class).

Embedding conventions:
* Python floats are modelled as rationals (`ℚ`); all the constants in play
  (0.7, 0.85, 0.9, 0.95, 0.3, 0.5, 0.1, 100) are exactly representable.
* Python strings are Lean `String`s; `needle in haystack` is character-level
  substring search; `str.lower()` maps `Char.toLower` over the characters
  (the descriptions and keywords in play are ASCII).
* The external LLM backend is an oracle `backend : Nat → Option (List
  CategorizationResult)`: `backend k = none` models the `except Exception`
  path for batch `k` (network error, unparsable JSON, missing required
  field), `some cats` models a successfully parsed JSON array of
  `{id, type, category, confidence}` objects, `confidence = none` modelling
  an object without a `"confidence"` key (Python `cat.get("confidence", 0.5)`).
* In-place mutation of the caller's list (`transactions.sort(...)` in
  `generate_insights`) is modelled by returning the post-call list alongside
  the result.
* Loops over `range(0, len(transactions), batch_size)` are modelled by
  fuel-indexed structural recursion with fuel `transactions.length`, which is
  always sufficient because every iteration consumes at least one element.
-/

set_option maxRecDepth 100000

unseal Rat.add Rat.mul Rat.inv Rat.sub Rat.ofScientific

namespace Finanalyser

/-- The `Transaction` dataclass of `server.py`: `date`, `description`,
`amount` plus the three optional classification fields. -/
structure Transaction where
  date : String
  description : String
  amount : ℚ
  category : Option String := none
  type : Option String := none
  confidence : Option ℚ := none
deriving DecidableEq

/-- Character-level substring test: `needle` occurs contiguously in `hay`. -/
def strContains (hay needle : List Char) : Bool :=
  hay.tails.any (fun t => needle.isPrefixOf t)

/-- Python `needle in haystack` on strings. -/
def pyIn (needle hay : String) : Bool :=
  strContains hay.data needle.data

/-- Python `str.lower()` (per-character lowering; ASCII-faithful). -/
def pyLower (s : String) : String :=
  String.mk (s.data.map Char.toLower)

/-- Python `str.strip()`: drop whitespace from both ends. -/
def pyStrip (s : String) : String :=
  String.mk (((s.data.dropWhile Char.isWhitespace).reverse.dropWhile Char.isWhitespace).reverse)

/-- `priority_income_keywords` from `_fallback_categorize` (line 433). -/
def priorityIncomeKeywords : List String :=
  ["reimbursement", "refund", "return", "cashback", "deposit", "credit",
   "dividend", "interest", "bonus", "gift", "salary", "wage", "income"]

/-- The second income keyword list of `_fallback_categorize` (line 439). -/
def otherIncomeKeywords : List String :=
  ["payroll", "paycheck", "freelance", "contract", "consulting",
   "business income", "revenue", "sales", "tip"]

/-- The expense keyword list of `_fallback_categorize` (line 442). -/
def expensePatternKeywords : List String :=
  ["purchase", "payment", "withdrawal", "debit", "bill", "fee", "charge",
   "business dinner", "business lunch"]

/-- The `income_keywords` table of `_fallback_categorize` (lines 454-461),
in Python dict insertion order. -/
def incomeTable : List (String × List String) :=
  [("Salary", ["salary", "wage", "payroll", "paycheck"]),
   ("Freelance", ["freelance", "contract", "consulting"]),
   ("Business Income", ["business income", "revenue", "sales"]),
   ("Investment Returns", ["dividend", "interest", "capital gains"]),
   ("Refunds", ["refund", "return", "cashback", "reimbursement"]),
   ("Gifts", ["gift", "bonus", "tip"])]

/-- The `expense_keywords` table of `_fallback_categorize` (lines 472-492),
in Python dict insertion order, keyword lists verbatim (including the
duplicated `"vegetables"` entry for groceries). -/
def expenseTable : List (String × List String) :=
  [("Food Delivery & Takeout",
     ["delivery", "order", "takeout", "takeaway", "swiggy", "zomato", "uber eats", "delivered"]),
   ("Restaurants & Dining",
     ["lunch", "dinner", "meal", "restaurant", "dining", "dine", "brunch"]),
   ("Cafes & Coffee Shops",
     ["coffee", "cafe", "tea", "breakfast", "espresso", "latte", "cappuccino"]),
   ("Groceries & Supermarkets",
     ["grocery", "supermarket", "vegetables", "fruits", "market", "bazaar", "vegetables", "food hall"]),
   ("Fast Food & Quick Service",
     ["drive", "counter", "quick", "fast food", "sandwich", "burger", "pizza", "taco", "bell", "kfc", "mcdonalds"]),
   ("Transportation",
     ["taxi", "uber", "ola", "bus", "metro", "train", "fuel", "petrol", "gas", "parking", "ride"]),
   ("Travel & Accommodation",
     ["hotel", "flight", "travel", "booking", "accommodation", "resort", "airline", "airport"]),
   ("Shopping & Retail",
     ["shopping", "store", "retail", "mall", "purchase", "buy", "clothes", "electronics"]),
   ("Entertainment & Recreation",
     ["movie", "cinema", "netflix", "spotify", "gaming", "theater", "concert", "entertainment"]),
   ("Healthcare & Medical",
     ["hospital", "doctor", "pharmacy", "medical", "health", "clinic", "medicine", "treatment"]),
   ("Utilities & Bills",
     ["electric", "electricity", "water", "internet", "phone", "cable", "utility", "bill"]),
   ("Housing & Rent",
     ["rent", "mortgage", "housing", "apartment", "house payment"]),
   ("Professional Services",
     ["subscription", "software", "service", "professional", "office", "adobe", "microsoft"]),
   ("Fitness & Wellness",
     ["gym", "fitness", "workout", "yoga", "health club", "personal training", "membership"]),
   ("Personal Care & Beauty",
     ["salon", "spa", "beauty", "haircut", "cosmetics", "personal care"]),
   ("Education & Learning",
     ["course", "education", "learning", "book", "training", "class"]),
   ("Banking & Fees",
     ["fee", "charge", "bank", "atm", "transfer", "withdrawal fee"]),
   ("Insurance",
     ["insurance", "premium", "policy"]),
   ("Investments",
     ["investment", "mutual fund", "sip", "stock", "dividend"])]

/-- The `activity_keywords` confidence-boost set (line 505). -/
def activityKeywords : List String :=
  ["lunch", "dinner", "breakfast", "coffee", "meal", "order", "delivery"]

/-- The `business_keywords` confidence-boost set (line 510). -/
def businessKeywords : List String :=
  ["restaurant", "cafe", "hotel", "gym", "hospital", "pharmacy"]

/-- Type determination cascade of `_fallback_categorize` (lines 432-449),
translated branch for branch, including the unreachable
`'expense' in description and 'reimbursement' in description` arm.
`description` is the already-lowered description. -/
def fallbackTypeOf (description : String) (amount : ℚ) : String :=
  if priorityIncomeKeywords.any (fun keyword => pyIn keyword description) then "income"
  else if otherIncomeKeywords.any (fun keyword => pyIn keyword description) then "income"
  else if expensePatternKeywords.any (fun keyword => pyIn keyword description) then "expense"
  else if pyIn "expense" description && pyIn "reimbursement" description then "income"
  else if amount > 0 then "income" else "expense"

/-- Confidence computed for one matched `keyword` from a category whose full
keyword list is `keywords` (lines 500-521): base 0.7, replaced by 0.85 for
activity keywords / 0.9 for business keywords, `+0.1` per extra keyword of
the same category that also matches (capped at 0.95), `+0.1` (capped at
0.95) when the keyword equals the whole lowered-stripped description. -/
def kwConfidence (keywords : List String) (keyword description : String) : ℚ :=
  let confidence : ℚ := 7/10
  let confidence := if activityKeywords.contains keyword then 85/100 else confidence
  let confidence := if businessKeywords.contains keyword then 9/10 else confidence
  let matching := keywords.filter (fun kw => pyIn kw description)
  let confidence :=
    if matching.length > 1 then
      min (95/100) (confidence + (1/10) * ((matching.length - 1 : ℕ) : ℚ))
    else confidence
  let confidence :=
    if keyword = pyStrip (pyLower description) then min (95/100) (confidence + 1/10)
    else confidence
  confidence

/-- The nested best-match loop over `expense_keywords` (lines 495-525):
running `(best_match, best_confidence)` state, updated whenever a matching
keyword scores strictly higher. -/
def expenseBestLoop (description : String) : Option String × ℚ :=
  expenseTable.foldl
    (fun acc p =>
      p.2.foldl
        (fun acc keyword =>
          if pyIn keyword description then
            let confidence := kwConfidence p.2 keyword description
            if confidence > acc.2 then (some p.1, confidence) else acc
          else acc)
        acc)
    (none, 0)

/-- `_fallback_categorize` (lines 427-535): sets `type` by the keyword
cascade, then `category`/`confidence` via the income table (first matching
category, flat 0.7) or the expense best-match loop; `"Other Income"` /
`"Other"` with 0.3 when nothing matches. -/
def fallback_categorize (transaction : Transaction) : Transaction :=
  let description := pyLower transaction.description
  let amount := transaction.amount
  let ty := fallbackTypeOf description amount
  if ty = "income" then
    match incomeTable.find? (fun p => p.2.any (fun keyword => pyIn keyword description)) with
    | some p =>
        { transaction with type := some ty, category := some p.1, confidence := some (7/10) }
    | none =>
        { transaction with type := some ty, category := some "Other Income", confidence := some (3/10) }
  else
    let best := expenseBestLoop description
    match best.1 with
    | some cat =>
        { transaction with type := some ty, category := some cat, confidence := some best.2 }
    | none =>
        { transaction with type := some ty, category := some "Other", confidence := some (3/10) }

example : pyIn "salary" "monthly salary credit" = true := by decide

example : (fallback_categorize ⟨"2024-01-01", "Monthly Salary", 1000, none, none, none⟩).type
    = some "income" := by decide

example : (fallback_categorize ⟨"2024-01-01", "Monthly Salary", 1000, none, none, none⟩).category
    = some "Salary" := by decide

example : (fallback_categorize ⟨"2024-01-01", "coffee shop purchase", -5, none, none, none⟩).category
    = some "Cafes & Coffee Shops" := by decide

example : (fallback_categorize ⟨"2024-01-01", "coffee shop purchase", -5, none, none, none⟩).confidence
    = some (85/100) := by decide

/-- One element of the backend's parsed JSON response: an
`{id, type, category, confidence}` object (`confidence = none` models a
missing `"confidence"` key, read back with default 0.5). -/
structure CategorizationResult where
  id : Int
  type : String
  category : String
  confidence : Option ℚ := none
deriving DecidableEq

/-- The unlabeled copy `Transaction(date=tx.date, description=tx.description,
amount=tx.amount)` built at line 401. -/
def freshOf (tx : Transaction) : Transaction :=
  { date := tx.date, description := tx.description, amount := tx.amount }

/-- Application of one matched backend result to a transaction copy
(lines 412-414); a missing `"confidence"` key defaults to 0.5. -/
def applyResultTo (tx : Transaction) (c : CategorizationResult) : Transaction :=
  { date := tx.date, description := tx.description, amount := tx.amount,
    category := some c.category, type := some c.type,
    confidence := some (c.confidence.getD (1/2)) }

/-- The success path of `_categorize_batch` (lines 399-421): each transaction
of the batch is rebuilt unlabeled, matched against the result whose `id`
equals `transactions.index(tx)` (the index of the first *equal* transaction),
labeled from that result or, when no result matches, classified by
`_fallback_categorize`. -/
def categorize_batch_success (batch : List Transaction) (cats : List CategorizationResult) :
    List Transaction :=
  batch.map (fun tx =>
    let txIndex := batch.findIdx (fun t => t == tx)
    match cats.find? (fun c => c.id == (txIndex : Int)) with
    | some c => applyResultTo tx c
    | none => fallback_categorize (freshOf tx))

/-- `_categorize_batch` as seen by its callers: a parsed response labels the
batch positionally; any exception in the `try` block (API error, unparsable
JSON, missing field) yields the whole-batch fallback (lines 423-425). -/
def categorize_batch (res : Option (List CategorizationResult)) (batch : List Transaction) :
    List Transaction :=
  match res with
  | some cats => categorize_batch_success batch cats
  | none => batch.map fallback_categorize

/-- The `for i in range(0, len(transactions), batch_size)` loop of
`categorize_transactions_with_llm` (lines 140-148), fuel-indexed; `k` is the
0-based batch index. -/
def categorizeLoop (backend : Nat → Option (List CategorizationResult)) :
    Nat → Nat → List Transaction → List Transaction
  | 0, _, _ => []
  | fuel + 1, k, l =>
    match l with
    | [] => []
    | _ :: _ => categorize_batch (backend k) (l.take 20) ++ categorizeLoop backend fuel (k + 1) (l.drop 20)

/-- `categorize_transactions_with_llm` (lines 130-150): without a client every
transaction is fallback-classified; with a client the input is processed in
batches of 20, each batch's backend response given by the oracle `backend`. -/
def categorize_transactions_with_llm (clientAvailable : Bool)
    (backend : Nat → Option (List CategorizationResult)) (transactions : List Transaction) :
    List Transaction :=
  if clientAvailable then categorizeLoop backend transactions.length 0 transactions
  else transactions.map fallback_categorize

/-- Projection to the immutable raw triple of a transaction. -/
def rawView (tx : Transaction) : String × String × ℚ :=
  (tx.date, tx.description, tx.amount)

theorem fallback_rawView (tx : Transaction) : rawView (fallback_categorize tx) = rawView tx := by
  unfold fallback_categorize
  dsimp only
  split <;> split <;> rfl

theorem categorize_batch_rawView (res : Option (List CategorizationResult))
    (batch : List Transaction) :
    (categorize_batch res batch).map rawView = batch.map rawView := by
  match res with
  | some cats =>
    simp only [categorize_batch, categorize_batch_success, List.map_map]
    refine List.map_congr_left (fun tx _ => ?_)
    simp only [Function.comp_apply]
    split
    · rfl
    · rw [fallback_rawView]
      rfl
  | none =>
    simp only [categorize_batch, List.map_map]
    exact List.map_congr_left (fun tx _ => fallback_rawView tx)

theorem categorizeLoop_rawView (backend : Nat → Option (List CategorizationResult)) :
    ∀ (fuel k : Nat) (l : List Transaction), l.length ≤ fuel →
      (categorizeLoop backend fuel k l).map rawView = l.map rawView := by
  intro fuel
  induction fuel with
  | zero =>
    intro k l h
    interval_cases h' : l.length
    · rw [List.length_eq_zero] at h'
      subst h'
      rfl
  | succ fuel ih =>
    intro k l h
    match l with
    | [] => rfl
    | a :: l' =>
      rw [categorizeLoop, List.map_append, categorize_batch_rawView,
        ih (k + 1) ((a :: l').drop 20) (by simp [List.length_drop] at h ⊢; omega),
        ← List.map_append, List.take_append_drop]

example :
    (categorize_transactions_with_llm true
        (fun _ => some [⟨0, "expense", "A", some (9/10)⟩, ⟨1, "income", "B", none⟩])
        [⟨"d1", "x", 5, none, none, none⟩, ⟨"d2", "y", -3, none, none, none⟩]).map
      Transaction.category = [some "A", some "B"] := by decide

example :
    (categorize_transactions_with_llm true
        (fun _ => some [⟨1, "income", "B", none⟩])
        [⟨"d1", "x", 5, none, none, none⟩, ⟨"d2", "y", -3, none, none, none⟩]).map
      Transaction.confidence = [some (3/10), some (1/2)] := by decide

/-- C1: for every transaction sequence and every behaviour of the external
backend (including per-batch failure and missing ids), and whether or not a
client is configured, `categorize_transactions_with_llm` returns a sequence
of the same length whose order of `(date, description, amount)` triples
equals the input order. -/
theorem classify_order_preservation (clientAvailable : Bool)
    (backend : Nat → Option (List CategorizationResult)) (transactions : List Transaction) :
    (categorize_transactions_with_llm clientAvailable backend transactions).length
        = transactions.length ∧
    (categorize_transactions_with_llm clientAvailable backend transactions).map rawView
        = transactions.map rawView := by
  have key : (categorize_transactions_with_llm clientAvailable backend transactions).map rawView
      = transactions.map rawView := by
    unfold categorize_transactions_with_llm
    split
    · exact categorizeLoop_rawView backend _ 0 transactions le_rfl
    · rw [List.map_map]
      exact List.map_congr_left (fun tx _ => fallback_rawView tx)
  refine ⟨?_, key⟩
  have hlen := congrArg List.length key
  simpa using hlen

/-- Claim-side rendering of the type rule of spec §4.2: a strict four-tier
priority, first match wins — priority income keyword, then other income
keyword, then expense keyword, then the sign of the amount (positive income,
non-positive expense). The unreachable `expense and reimbursement` arm of
the code is absent here. -/
def fourTierType (description : String) (amount : ℚ) : String :=
  if priorityIncomeKeywords.any (fun keyword => pyIn keyword description) then "income"
  else if otherIncomeKeywords.any (fun keyword => pyIn keyword description) then "income"
  else if expensePatternKeywords.any (fun keyword => pyIn keyword description) then "expense"
  else if amount > 0 then "income" else "expense"

theorem priority_reimbursement_false {d : String}
    (h : priorityIncomeKeywords.any (fun keyword => pyIn keyword d) = false) :
    pyIn "reimbursement" d = false := by
  have hall := List.any_eq_false.mp h "reimbursement" (by simp [priorityIncomeKeywords])
  simpa using hall

theorem fallbackTypeOf_eq_fourTier (d : String) (a : ℚ) :
    fallbackTypeOf d a = fourTierType d a := by
  unfold fallbackTypeOf fourTierType
  rcases h1 : priorityIncomeKeywords.any (fun keyword => pyIn keyword d) with _ | _
  · rw [priority_reimbursement_false h1]
    simp
  · simp

theorem fallback_type_eq (tx : Transaction) :
    (fallback_categorize tx).type = some (fallbackTypeOf (pyLower tx.description) tx.amount) := by
  unfold fallback_categorize
  dsimp only
  split <;> split <;> rfl

/-- C4: for every transaction, the Fallback Classifier's assigned type is
exactly the strict four-tier priority of the spec: a priority income keyword
in the lower-cased description yields income (overriding any expense
keyword also present), otherwise another income-pattern keyword yields
income, otherwise an expense-pattern keyword yields expense, otherwise a
positive amount yields income and a non-positive amount yields expense. -/
theorem fallback_type_four_tier (tx : Transaction) :
    (fallback_categorize tx).type = some (fourTierType (pyLower tx.description) tx.amount) := by
  rw [fallback_type_eq, fallbackTypeOf_eq_fourTier]

theorem kwConfidence_nonneg (keywords : List String) (keyword description : String) :
    0 ≤ kwConfidence keywords keyword description := by
  unfold kwConfidence
  dsimp only
  split_ifs <;> positivity

theorem kwConfidence_le (keywords : List String) (keyword description : String) :
    kwConfidence keywords keyword description ≤ 95/100 := by
  unfold kwConfidence
  dsimp only
  split_ifs <;> norm_num

theorem foldl_preserve {α σ : Type _} (P : σ → Prop) (f : σ → α → σ)
    (hf : ∀ s a, P s → P (f s a)) : ∀ (l : List α) (s : σ), P s → P (l.foldl f s) := by
  intro l
  induction l with
  | nil => intro s hs; exact hs
  | cons a l ih => intro s hs; exact ih (f s a) (hf s a hs)

/-- Invariant of the expense best-match loop: once a match has been recorded,
the running confidence lies in `[0, 0.95]`. -/
theorem expenseBestLoop_bounds (description : String) :
    (expenseBestLoop description).1.isSome = true →
      0 ≤ (expenseBestLoop description).2 ∧ (expenseBestLoop description).2 ≤ 95/100 := by
  unfold expenseBestLoop
  refine foldl_preserve
    (fun (acc : Option String × ℚ) => acc.1.isSome = true → 0 ≤ acc.2 ∧ acc.2 ≤ 95/100)
    _ ?_ _ _ (by simp)
  intro s p hs
  refine foldl_preserve
    (fun (acc : Option String × ℚ) => acc.1.isSome = true → 0 ≤ acc.2 ∧ acc.2 ≤ 95/100)
    _ ?_ _ _ hs
  intro s' keyword hs'
  dsimp only
  split
  · split
    · intro _
      exact ⟨kwConfidence_nonneg _ _ _, kwConfidence_le _ _ _⟩
    · exact hs'
  · exact hs'

/-- After the Fallback Classifier, `type`, `category`, `confidence` are all
set and the confidence lies in `[0, 1]`. -/
theorem fallback_fully_labels (tx : Transaction) :
    (fallback_categorize tx).type.isSome = true ∧
    (fallback_categorize tx).category.isSome = true ∧
    ∃ c, (fallback_categorize tx).confidence = some c ∧ 0 ≤ c ∧ c ≤ 1 := by
  unfold fallback_categorize
  dsimp only
  split
  · split
    · exact ⟨rfl, rfl, 7/10, rfl, by norm_num⟩
    · exact ⟨rfl, rfl, 3/10, rfl, by norm_num⟩
  · split
    case _ cat heq =>
      have hb := expenseBestLoop_bounds (pyLower tx.description) (by rw [heq]; rfl)
      exact ⟨rfl, rfl, _, rfl, hb.1, hb.2.trans (by norm_num)⟩
    case _ heq =>
      exact ⟨rfl, rfl, 3/10, rfl, by norm_num⟩

/-- Well-formedness of one oracle answer: every confidence the backend
explicitly supplies lies in `[0, 1]` (the score range its interface
documents). -/
def ConfOk (res : Option (List CategorizationResult)) : Bool :=
  match res with
  | some cats =>
    cats.all (fun c =>
      match c.confidence with
      | some q => decide (0 ≤ q ∧ q ≤ 1)
      | none => true)
  | none => true

theorem categorize_batch_labels (res : Option (List CategorizationResult))
    (batch : List Transaction) (h : ConfOk res = true) :
    ∀ tx ∈ categorize_batch res batch,
      tx.type.isSome = true ∧ tx.category.isSome = true ∧
      ∃ c, tx.confidence = some c ∧ 0 ≤ c ∧ c ≤ 1 := by
  match res with
  | none =>
    intro tx htx
    simp only [categorize_batch, List.mem_map] at htx
    obtain ⟨tx0, _, rfl⟩ := htx
    exact fallback_fully_labels tx0
  | some cats =>
    intro tx htx
    simp only [categorize_batch, categorize_batch_success, List.mem_map] at htx
    obtain ⟨tx0, _, rfl⟩ := htx
    split
    case _ c hfind =>
      refine ⟨rfl, rfl, c.confidence.getD (1/2), rfl, ?_⟩
      have hc : c ∈ cats := List.mem_of_find?_eq_some hfind
      have hok := List.all_eq_true.mp h c hc
      match hcc : c.confidence with
      | none => norm_num
      | some q =>
        rw [hcc] at hok
        have := of_decide_eq_true hok
        simpa using this
    case _ =>
      exact fallback_fully_labels _

theorem categorizeLoop_labels (backend : Nat → Option (List CategorizationResult))
    (hb : ∀ k, ConfOk (backend k) = true) :
    ∀ (fuel k : Nat) (l : List Transaction), ∀ tx ∈ categorizeLoop backend fuel k l,
      tx.type.isSome = true ∧ tx.category.isSome = true ∧
      ∃ c, tx.confidence = some c ∧ 0 ≤ c ∧ c ≤ 1 := by
  intro fuel
  induction fuel with
  | zero => intro k l tx htx; simp [categorizeLoop] at htx
  | succ fuel ih =>
    intro k l tx htx
    match l with
    | [] => simp [categorizeLoop] at htx
    | a :: l' =>
      rw [categorizeLoop, List.mem_append] at htx
      rcases htx with htx | htx
      · exact categorize_batch_labels _ _ (hb k) tx htx
      · exact ih (k + 1) _ tx htx

/-- C2: whenever every confidence the backend supplies is in `[0, 1]` (its
documented score range), every transaction returned by
`categorize_transactions_with_llm` — through the external-backend path, the
per-batch fallback, or the no-client Fallback Classifier path — has `type`,
`category` and `confidence` all set, with the confidence in `[0, 1]`. -/
theorem classify_fully_labels (clientAvailable : Bool)
    (backend : Nat → Option (List CategorizationResult)) (transactions : List Transaction)
    (hb : ∀ k, ConfOk (backend k) = true) :
    ∀ tx ∈ categorize_transactions_with_llm clientAvailable backend transactions,
      tx.type.isSome = true ∧ tx.category.isSome = true ∧
      ∃ c, tx.confidence = some c ∧ 0 ≤ c ∧ c ≤ 1 := by
  intro tx htx
  unfold categorize_transactions_with_llm at htx
  split at htx
  · exact categorizeLoop_labels backend hb _ 0 transactions tx htx
  · simp only [List.mem_map] at htx
    obtain ⟨tx0, _, rfl⟩ := htx
    exact fallback_fully_labels tx0

/-- Witness for C2: the one transaction produced for a concrete backend and
input is fully labeled with confidence in range. -/
theorem classify_fully_labels_witness :
    (⟨"2024-01-01", "salary", 1000, some "Salary", some "income", some (9/10)⟩
        : Transaction).type.isSome = true ∧
    (⟨"2024-01-01", "salary", 1000, some "Salary", some "income", some (9/10)⟩
        : Transaction).category.isSome = true ∧
    ∃ c, (⟨"2024-01-01", "salary", 1000, some "Salary", some "income", some (9/10)⟩
        : Transaction).confidence = some c ∧ 0 ≤ c ∧ c ≤ 1 :=
  classify_fully_labels true (fun _ => some [⟨0, "income", "Salary", some (9/10)⟩])
    [⟨"2024-01-01", "salary", 1000, none, none, none⟩]
    (fun _ => by
      show ConfOk (some [⟨0, "income", "Salary", some (9/10)⟩]) = true
      decide)
    ⟨"2024-01-01", "salary", 1000, some "Salary", some "income", some (9/10)⟩ (by decide)

/-- All scored `(category, confidence)` matches of `description` against a
keyword table, in table order: one entry per table keyword that occurs as a
substring of the description, scored by `kwConfidence`. -/
def tableMatches (table : List (String × List String)) (description : String) :
    List (String × ℚ) :=
  table.flatMap (fun p =>
    (p.2.filter (fun keyword => pyIn keyword description)).map
      (fun keyword => (p.1, kwConfidence p.2 keyword description)))

/-- Selection rule in the words of spec §4.2: the match with the numerically
highest confidence wins, ties broken by first occurrence in table order. -/
def bestScoring (ms : List (String × ℚ)) : Option (String × ℚ) :=
  ms.find? (fun p => ms.all (fun q => decide (q.2 ≤ p.2)))

/-- Claim C5's category determination rendered verbatim for an arbitrary
table: best-scoring substring match, or the given fallback category with
confidence 0.3 when nothing matches. -/
def claimCategory (table : List (String × List String)) (other : String)
    (description : String) : String × ℚ :=
  match bestScoring (tableMatches table description) with
  | some p => p
  | none => (other, 3/10)

/-- One update of the running `(best_match, best_confidence)` state. -/
def bestStep (acc : Option String × ℚ) (m : String × ℚ) : Option String × ℚ :=
  if m.2 > acc.2 then (some m.1, m.2) else acc

/-- First match whose confidence strictly exceeds `c` and is maximal over
the whole list. -/
def firstMaxAbove (c : ℚ) (ms : List (String × ℚ)) : Option (String × ℚ) :=
  ms.find? (fun p => decide (c < p.2) && ms.all (fun q => decide (q.2 ≤ p.2)))

theorem find?_congr_mem {α : Type _} {p q : α → Bool} :
    ∀ {l : List α}, (∀ a ∈ l, p a = q a) → l.find? p = l.find? q := by
  intro l
  induction l with
  | nil => intro _; rfl
  | cons a l ih =>
    intro h
    rw [List.find?_cons, List.find?_cons, h a (by simp)]
    split
    · rfl
    · exact ih (fun b hb => h b (by simp [hb]))

theorem exists_max_snd :
    ∀ (ms : List (String × ℚ)), ms ≠ [] → ∃ p ∈ ms, ∀ q ∈ ms, q.2 ≤ p.2 := by
  intro ms
  induction ms with
  | nil => intro h; exact absurd rfl h
  | cons x rest ih =>
    intro _
    match rest, ih with
    | [], _ => exact ⟨x, by simp⟩
    | y :: rest', ih =>
      obtain ⟨m, hm, hmax⟩ := ih (by simp)
      rcases le_total m.2 x.2 with hle | hle
      · exact ⟨x, by simp, fun q hq => by
          rcases List.mem_cons.mp hq with rfl | hq
          · exact le_refl _
          · exact le_trans (hmax q hq) hle⟩
      · exact ⟨m, List.mem_cons_of_mem x hm, fun q hq => by
          rcases List.mem_cons.mp hq with rfl | hq
          · exact hle
          · exact hmax q hq⟩

theorem foldl_bestStep_general :
    ∀ (ms : List (String × ℚ)) (acc : Option String × ℚ),
      ms.foldl bestStep acc =
        match firstMaxAbove acc.2 ms with
        | some p => (some p.1, p.2)
        | none => acc := by
  intro ms
  induction ms with
  | nil => intro acc; rfl
  | cons p rest ih =>
    intro acc
    rw [List.foldl_cons]
    by_cases hp : p.2 > acc.2
    · rw [show bestStep acc p = (some p.1, p.2) from by simp [bestStep, hp], ih]
      by_cases hall : rest.all (fun q => decide (q.2 ≤ p.2)) = true
      · have hnone : firstMaxAbove p.2 rest = none := by
          rw [firstMaxAbove, List.find?_eq_none]
          intro x hx
          have hle : x.2 ≤ p.2 := by simpa using List.all_eq_true.mp hall x hx
          simp [not_lt.mpr hle]
        have hfirst : firstMaxAbove acc.2 (p :: rest) = some p := by
          rw [firstMaxAbove, List.find?_cons_of_pos]
          simp only [List.all_cons, hall]
          simp [hp]
        rw [hnone, hfirst]
      · have hex : ∃ x ∈ rest, p.2 < x.2 := by
          by_contra hc
          push_neg at hc
          exact hall (List.all_eq_true.mpr (fun q hq => by simpa [not_lt] using hc q hq))
        have hfirst : firstMaxAbove acc.2 (p :: rest) = firstMaxAbove p.2 rest := by
          rw [firstMaxAbove, List.find?_cons_of_neg, firstMaxAbove]
          · refine find?_congr_mem (fun x hx => ?_)
            by_cases hxall : rest.all (fun q => decide (q.2 ≤ x.2)) = true
            · obtain ⟨w, hw, hpw⟩ := hex
              have hwx : w.2 ≤ x.2 := by simpa using List.all_eq_true.mp hxall w hw
              have hpx : p.2 < x.2 := lt_of_lt_of_le hpw hwx
              simp [List.all_cons, hxall, hpx, lt_trans hp hpx, le_of_lt hpx]
            · simp only [List.all_cons]
              rw [show rest.all (fun q => decide (q.2 ≤ x.2)) = false from
                Bool.eq_false_iff.mpr hxall]
              simp
          · obtain ⟨w, hw, hpw⟩ := hex
            simp only [List.all_cons]
            rw [show rest.all (fun q => decide (q.2 ≤ p.2)) = false from by
              rw [Bool.eq_false_iff]
              intro hc
              exact absurd (by simpa using List.all_eq_true.mp hc w hw) (not_le.mpr hpw)]
            simp
        rw [hfirst]
        obtain ⟨w, hw, hpw⟩ := hex
        obtain ⟨m, hm, hmax⟩ := exists_max_snd rest (by rintro rfl; simp at hw)
        have hsome : (firstMaxAbove p.2 rest).isSome = true := by
          rw [firstMaxAbove, List.find?_isSome]
          refine ⟨m, hm, ?_⟩
          have h1 : p.2 < m.2 := lt_of_lt_of_le hpw (hmax w hw)
          rw [Bool.and_eq_true]
          exact ⟨decide_eq_true h1,
            List.all_eq_true.mpr (fun q hq => decide_eq_true (hmax q hq))⟩
        obtain ⟨y, hy⟩ := Option.isSome_iff_exists.mp hsome
        dsimp only
        rw [hy]
    · rw [show bestStep acc p = acc from by simp [bestStep, hp], ih]
      have hfirst : firstMaxAbove acc.2 (p :: rest) = firstMaxAbove acc.2 rest := by
        rw [firstMaxAbove, List.find?_cons_of_neg, firstMaxAbove]
        · refine find?_congr_mem (fun x hx => ?_)
          by_cases hax : acc.2 < x.2
          · have hpx : p.2 ≤ x.2 := le_trans (not_lt.mp hp) (le_of_lt hax)
            simp [List.all_cons, hax, hpx]
          · simp [hax]
        · simp [not_lt.mp hp, not_lt_of_ge (not_lt.mp hp)]
      rw [hfirst]

theorem kwConfidence_pos (keywords : List String) (keyword description : String) :
    0 < kwConfidence keywords keyword description := by
  unfold kwConfidence
  dsimp only
  split_ifs <;> positivity

theorem tableMatches_pos (table : List (String × List String)) (description : String) :
    ∀ p ∈ tableMatches table description, 0 < p.2 := by
  intro p hp
  simp only [tableMatches, List.mem_flatMap, List.mem_map, List.mem_filter] at hp
  obtain ⟨q, _, keyword, _, rfl⟩ := hp
  exact kwConfidence_pos _ _ _

theorem firstMaxAbove_zero {ms : List (String × ℚ)} (h : ∀ p ∈ ms, 0 < p.2) :
    firstMaxAbove 0 ms = bestScoring ms := by
  refine find?_congr_mem (fun p hp => ?_)
  simp [h p hp]

theorem innerFold_eq (kws0 : List String) (cat : String) (d : String) :
    ∀ (kws : List String) (acc : Option String × ℚ),
      kws.foldl
        (fun acc keyword =>
          if pyIn keyword d then
            let confidence := kwConfidence kws0 keyword d
            if confidence > acc.2 then (some cat, confidence) else acc
          else acc)
        acc
      = ((kws.filter (fun keyword => pyIn keyword d)).map
          (fun keyword => (cat, kwConfidence kws0 keyword d))).foldl bestStep acc := by
  intro kws
  induction kws with
  | nil => intro acc; rfl
  | cons kw rest ih =>
    intro acc
    by_cases h : pyIn kw d = true
    · simp only [List.foldl_cons, List.filter_cons, h, if_true, List.map_cons, ih]
      simp [h, bestStep]
    · simp only [List.foldl_cons, List.filter_cons, h, if_false, ih]
      simp [h]

theorem foldl_table_flatten (d : String) :
    ∀ (table : List (String × List String)) (acc : Option String × ℚ),
      table.foldl
        (fun acc p =>
          p.2.foldl
            (fun acc keyword =>
              if pyIn keyword d then
                let confidence := kwConfidence p.2 keyword d
                if confidence > acc.2 then (some p.1, confidence) else acc
              else acc)
            acc)
        acc
      = (table.flatMap (fun p =>
          (p.2.filter (fun keyword => pyIn keyword d)).map
            (fun keyword => (p.1, kwConfidence p.2 keyword d)))).foldl bestStep acc := by
  intro table
  induction table with
  | nil => intro acc; rfl
  | cons p rest ih =>
    intro acc
    rw [List.foldl_cons, List.flatMap_cons, List.foldl_append, ih, innerFold_eq]

theorem expenseBestLoop_flatten (d : String) :
    expenseBestLoop d = (tableMatches expenseTable d).foldl bestStep (none, 0) :=
  foldl_table_flatten d expenseTable (none, 0)

/-- The expense best-match loop computes exactly the spec's selection rule:
the best-scoring match over the expense table, ties to the first in table
order; `(none, 0)` when nothing matches. -/
theorem expenseBestLoop_eq_bestScoring (d : String) :
    expenseBestLoop d =
      match bestScoring (tableMatches expenseTable d) with
      | some p => (some p.1, p.2)
      | none => (none, 0) := by
  rw [expenseBestLoop_flatten, foldl_bestStep_general]
  have h0 : ((none : Option String), (0 : ℚ)).2 = 0 := rfl
  rw [h0, firstMaxAbove_zero (tableMatches_pos expenseTable d)]

/-- C5 counterexample: on the income side the code takes the *first* income
category with any matching keyword at flat confidence 0.7, whereas the
claim's best-scoring rule (base 0.7 plus the exact-match boost) would give
confidence 0.8 to the description "salary". -/
theorem fallback_income_flat_confidence_cex :
    (fallback_categorize ⟨"2024-01-01", "salary", 100, none, none, none⟩).confidence
        = some (7/10) ∧
    claimCategory incomeTable "Other Income" (pyLower "salary") = ("Salary", 8/10) ∧
    (7/10 : ℚ) ≠ 8/10 :=
  ⟨by decide, by decide, by norm_num⟩

/-- C5 (amended): the Fallback Classifier's category determination uses the
claimed best-scoring algorithm (base 0.7, 0.85 activity, 0.9 business-type,
+0.1 per extra same-category match and +0.1 exact-match, capped at 0.95,
highest confidence wins with ties to first table order, `"Other"`/0.3 when
nothing matches) for the *expense* table only; for the *income* table it
selects the first category in table order with any matching keyword at flat
confidence 0.7, `"Other Income"`/0.3 when nothing matches. -/
theorem fallback_category_determination (tx : Transaction) :
    ((fallback_categorize tx).category, (fallback_categorize tx).confidence) =
      if fallbackTypeOf (pyLower tx.description) tx.amount = "income" then
        match incomeTable.find?
            (fun p => p.2.any (fun keyword => pyIn keyword (pyLower tx.description))) with
        | some p => (some p.1, some (7/10))
        | none => (some "Other Income", some (3/10))
      else
        match bestScoring (tableMatches expenseTable (pyLower tx.description)) with
        | some p => (some p.1, some p.2)
        | none => (some "Other", some (3/10)) := by
  unfold fallback_categorize
  dsimp only
  split
  case _ h =>
    split <;> rfl
  case _ h =>
    rw [expenseBestLoop_eq_bestScoring]
    cases hB : bestScoring (tableMatches expenseTable (pyLower tx.description)) <;> rfl

/-- Spec §4.3's matching rule rendered verbatim: the transaction at position
`i` of the batch is matched to the result whose `id` equals `i`; with no such
result it is classified individually by the Fallback Classifier. -/
def specApply (cats : List CategorizationResult) : Nat → List Transaction → List Transaction
  | _, [] => []
  | i, tx :: rest =>
    (match cats.find? (fun c => c.id == (i : Int)) with
     | some c => applyResultTo tx c
     | none => fallback_categorize (freshOf tx)) :: specApply cats (i + 1) rest

/-- Spec-side batch merge: batches of 20 in input order, a failing batch
(oracle `none`) fully fallback-classified, a successful batch labeled
positionally by id. -/
def specMergeLoop (backend : Nat → Option (List CategorizationResult)) :
    Nat → Nat → List Transaction → List Transaction
  | 0, _, _ => []
  | fuel + 1, k, l =>
    match l with
    | [] => []
    | _ :: _ =>
      (match backend k with
       | some cats => specApply cats 0 (l.take 20)
       | none => (l.take 20).map fallback_categorize) ++
        specMergeLoop backend fuel (k + 1) (l.drop 20)

theorem findIdx_beq_of_nodup {α : Type _} [DecidableEq α] :
    ∀ (l : List α), l.Nodup → ∀ (j : Nat) (hj : j < l.length),
      l.findIdx (fun t => t == l[j]) = j := by
  intro l
  induction l with
  | nil => intro _ j hj; simp at hj
  | cons a rest ih =>
    intro hnd j hj
    match j with
    | 0 => simp [List.findIdx_cons]
    | j + 1 =>
      have hj' : j < rest.length := Nat.succ_lt_succ_iff.mp hj
      have hne : (a == rest[j]) = false := by
        have hmem : rest[j] ∈ rest := List.getElem_mem hj'
        have hneq : a ≠ rest[j] :=
          fun he => (List.nodup_cons.mp hnd).1 (he ▸ hmem)
        simpa using hneq
      rw [show ((a :: rest)[j + 1] : α) = rest[j] from rfl,
        List.findIdx_cons, hne, cond_false, ih (List.nodup_cons.mp hnd).2 j hj']

theorem specApply_length (cats : List CategorizationResult) :
    ∀ (l : List Transaction) (i : Nat), (specApply cats i l).length = l.length := by
  intro l
  induction l with
  | nil => intro i; rfl
  | cons tx rest ih => intro i; simp [specApply, ih]

theorem specApply_getElem (cats : List CategorizationResult) :
    ∀ (l : List Transaction) (i j : Nat) (hjl : j < l.length)
      (hj : j < (specApply cats i l).length),
      (specApply cats i l)[j] =
        match cats.find? (fun c => c.id == ((i + j : Nat) : Int)) with
        | some c => applyResultTo l[j] c
        | none => fallback_categorize (freshOf l[j]) := by
  intro l
  induction l with
  | nil => intro i j hjl _; simp at hjl
  | cons tx rest ih =>
    intro i j hjl hj
    match j with
    | 0 => rfl
    | j + 1 =>
      have hjl' : j < rest.length := Nat.succ_lt_succ_iff.mp hjl
      have hj' : j < (specApply cats (i + 1) rest).length := by
        rw [specApply_length]; exact hjl'
      have hstep : ((specApply cats i (tx :: rest))[j + 1] : Transaction)
          = (specApply cats (i + 1) rest)[j] := rfl
      rw [hstep, ih (i + 1) j hjl' hj',
        show (i + 1) + j = i + (j + 1) from by omega]
      rfl

theorem categorize_batch_success_eq_specApply (batch : List Transaction)
    (cats : List CategorizationResult) (hnd : batch.Nodup) :
    categorize_batch_success batch cats = specApply cats 0 batch := by
  apply List.ext_getElem
  · rw [categorize_batch_success, List.length_map, specApply_length]
  · intro j h1 h2
    have hjb : j < batch.length := by simpa [categorize_batch_success] using h1
    simp only [categorize_batch_success, List.getElem_map]
    rw [specApply_getElem cats batch 0 j hjb h2]
    dsimp only
    rw [findIdx_beq_of_nodup batch hnd j hjb, Nat.zero_add]

theorem categorizeLoop_eq_specMergeLoop (backend : Nat → Option (List CategorizationResult)) :
    ∀ (fuel k : Nat) (l : List Transaction),
      (∀ j : Nat, ((l.drop (20 * j)).take 20).Nodup) →
      categorizeLoop backend fuel k l = specMergeLoop backend fuel k l := by
  intro fuel
  induction fuel with
  | zero => intro k l _; rfl
  | succ fuel ih =>
    intro k l h
    match l with
    | [] => rfl
    | a :: l' =>
      rw [categorizeLoop, specMergeLoop]
      congr 1
      · have hb : ((a :: l').take 20).Nodup := by simpa using h 0
        cases hbk : backend k with
        | some cats => exact categorize_batch_success_eq_specApply _ cats hb
        | none => rfl
      · refine ih (k + 1) _ (fun j => ?_)
        have hstep := h (j + 1)
        rw [List.drop_drop]
        have harith : 20 + 20 * j = 20 * (j + 1) := by omega
        rw [harith]
        exact hstep

/-- Twenty backend results addressing batch-local ids 0..19 with pairwise
distinct category names. -/
def idCats : List CategorizationResult :=
  (List.range 20).map (fun j => ⟨(j : Int), "expense", "c" ++ toString j, none⟩)

/-- Backend oracle whose batch 0 succeeds with `idCats` and whose every
later batch raises. -/
def oneFailBackend : Nat → Option (List CategorizationResult) :=
  fun k => if k = 0 then some idCats else none

/-- 21 transactions (two batches) whose positions 0 and 1 hold *equal*
transactions. -/
def dupTxs : List Transaction :=
  (List.range 20).map
      (fun j => ⟨"2024-01-01", "x", if j = 1 then 0 else (j : ℚ), none, none, none⟩)
    ++ [⟨"2024-01-02", "y", -1, none, none, none⟩]

/-- C3 counterexample: with batch 1's backend call failing (the claim's
premise), the successful batch 0 does *not* match transactions to results by
their own position: the duplicate transaction at position 1 receives the
result with id 0 (`Python list.index` returns the first equal element),
while the claim's by-position matching would give it the result with id 1. -/
theorem batch_matching_positional_cex :
    oneFailBackend 1 = none ∧
    ((categorize_transactions_with_llm true oneFailBackend dupTxs)[1]?).map
        Transaction.category = some (some "c0") ∧
    ((specMergeLoop oneFailBackend dupTxs.length 0 dupTxs)[1]?).map
        Transaction.category = some (some "c1") :=
  ⟨rfl, by decide, by decide⟩

/-- C3 (amended): provided each batch of 20 contains pairwise-distinct
`(date, description, amount, labels)` records — under which Python's
first-equal `list.index` coincides with the transaction's own position —
the orchestrator output equals the spec-side merge: a failing batch is
exactly the fallback-classified one, every other batch is labeled by
batch-local id, and the merged output keeps full length and input order.
Without that proviso a transaction is matched to the result whose id is the
index of the first transaction equal to it. -/
theorem batch_failure_isolation (backend : Nat → Option (List CategorizationResult))
    (transactions : List Transaction)
    (h : ∀ j : Nat, ((transactions.drop (20 * j)).take 20).Nodup) :
    categorize_transactions_with_llm true backend transactions
        = specMergeLoop backend transactions.length 0 transactions ∧
    (categorize_transactions_with_llm true backend transactions).map rawView
        = transactions.map rawView := by
  constructor
  · show categorizeLoop backend transactions.length 0 transactions = _
    exact categorizeLoop_eq_specMergeLoop backend transactions.length 0 transactions h
  · show (categorizeLoop backend transactions.length 0 transactions).map rawView = _
    exact categorizeLoop_rawView backend transactions.length 0 transactions le_rfl

/-- 21 pairwise-distinct transactions spanning two batches. -/
def isoTxs : List Transaction :=
  (List.range 21).map (fun j => ⟨"2024-01-01", "x", (j : ℚ), none, none, none⟩)

/-- Witness for the amended C3 at a concrete two-batch input whose second
batch fails. -/
theorem batch_failure_isolation_witness :
    categorize_transactions_with_llm true oneFailBackend isoTxs
        = specMergeLoop oneFailBackend isoTxs.length 0 isoTxs ∧
    (categorize_transactions_with_llm true oneFailBackend isoTxs).map rawView
        = isoTxs.map rawView :=
  batch_failure_isolation oneFailBackend isoTxs (by
    intro j
    match j with
    | 0 => decide
    | 1 => decide
    | n + 2 =>
      rw [List.drop_eq_nil_of_le]
      · simp
      · have : isoTxs.length = 21 := by decide
        omega)

/-- Python string `<`: lexicographic comparison by code point. -/
def charListLt : List Char → List Char → Bool
  | [], [] => false
  | [], _ :: _ => true
  | _ :: _, [] => false
  | a :: as, b :: bs => if a < b then true else if b < a then false else charListLt as bs

/-- Python `str.__lt__` on strings. -/
def pyStrLt (a b : String) : Bool :=
  charListLt a.data b.data

/-- Stable insertion of `x` into `l`: before the first strictly greater
element, hence after every element with an equal key. -/
def insertBefore {α : Type _} (lt : α → α → Bool) (x : α) : List α → List α
  | [] => [x]
  | y :: ys => if lt x y then x :: y :: ys else y :: insertBefore lt x ys

/-- Stable sort (insertion sort, processing left to right). Python's
`list.sort` is stable, and a stable sort for a total preorder is unique as a
function, so this models `transactions.sort(key=lambda x: x.date)`. -/
def sortStable {α : Type _} (lt : α → α → Bool) (l : List α) : List α :=
  l.foldl (fun acc x => insertBefore lt x acc) []

/-- The in-place `transactions.sort(key=lambda x: x.date)` of
`generate_insights` (line 627). -/
def pySortByDate (l : List Transaction) : List Transaction :=
  sortStable (fun t1 t2 => pyStrLt t1.date t2.date) l

theorem charListLt_asymm :
    ∀ {a b : List Char}, charListLt a b = true → charListLt b a = false := by
  intro a
  induction a with
  | nil =>
    intro b hab
    match b with
    | [] => simp [charListLt] at hab
    | _ :: _ => rfl
  | cons x xs ih =>
    intro b hab
    match b with
    | [] => simp [charListLt] at hab
    | y :: ys =>
      rw [charListLt] at hab ⊢
      by_cases hxy : x < y
      · rw [if_neg (lt_asymm hxy), if_pos hxy]
      · by_cases hyx : y < x
        · rw [if_neg hxy, if_pos hyx] at hab
          exact absurd hab (by simp)
        · rw [if_neg hxy, if_neg hyx] at hab
          rw [if_neg hyx, if_neg hxy]
          exact ih hab

theorem charListLt_trans :
    ∀ {a b c : List Char}, charListLt a b = true → charListLt b c = true →
      charListLt a c = true := by
  intro a
  induction a with
  | nil =>
    intro b c hab hbc
    match b, c with
    | [], _ => simp [charListLt] at hab
    | _ :: _, [] => simp [charListLt] at hbc
    | _ :: _, _ :: _ => rfl
  | cons x xs ih =>
    intro b c hab hbc
    match b, c with
    | [], _ => simp [charListLt] at hab
    | _ :: _, [] => simp [charListLt] at hbc
    | y :: ys, z :: zs =>
      rw [charListLt] at hab hbc ⊢
      by_cases hxy : x < y
      · by_cases hyz : y < z
        · rw [if_pos (lt_trans hxy hyz)]
        · by_cases hzy : z < y
          · rw [if_neg hyz, if_pos hzy] at hbc
            exact absurd hbc (by simp)
          · have heq : y = z := le_antisymm (le_of_not_lt hzy) (le_of_not_lt hyz)
            subst heq
            rw [if_pos hxy]
      · by_cases hyx : y < x
        · rw [if_neg hxy, if_pos hyx] at hab
          exact absurd hab (by simp)
        · have heq : x = y := le_antisymm (le_of_not_lt hyx) (le_of_not_lt hxy)
          subst heq
          rw [if_neg hxy] at hab
          rw [if_neg (lt_irrefl x)] at hab
          by_cases hxz : x < z
          · rw [if_pos hxz]
          · by_cases hzx : z < x
            · rw [if_neg hxz, if_pos hzx] at hbc
              exact absurd hbc (by simp)
            · rw [if_neg hxz, if_neg hzx] at hbc ⊢
              exact ih hab hbc

theorem insertBefore_perm {α : Type _} (lt : α → α → Bool) (x : α) :
    ∀ l : List α, (insertBefore lt x l).Perm (x :: l) := by
  intro l
  induction l with
  | nil => exact List.Perm.refl _
  | cons y ys ih =>
    rw [insertBefore]
    split
    · exact List.Perm.refl _
    · exact ((ih.cons y).trans (List.Perm.swap x y ys)).symm.symm

theorem foldl_insertBefore_perm {α : Type _} (lt : α → α → Bool) :
    ∀ (l acc : List α), (l.foldl (fun acc x => insertBefore lt x acc) acc).Perm (acc ++ l) := by
  intro l
  induction l with
  | nil => intro acc; simp
  | cons x xs ih =>
    intro acc
    rw [List.foldl_cons]
    refine (ih (insertBefore lt x acc)).trans ?_
    refine (List.Perm.append_right xs (insertBefore_perm lt x acc)).trans ?_
    exact List.perm_middle.symm

theorem sortStable_perm {α : Type _} (lt : α → α → Bool) (l : List α) :
    (sortStable lt l).Perm l := by
  simpa using foldl_insertBefore_perm lt l []

theorem mem_insertBefore {α : Type _} (lt : α → α → Bool) (x : α) (l : List α) (b : α) :
    b ∈ insertBefore lt x l ↔ b = x ∨ b ∈ l := by
  rw [(insertBefore_perm lt x l).mem_iff, List.mem_cons]

theorem insertBefore_sorted {α : Type _} (lt : α → α → Bool)
    (hasymm : ∀ a b, lt a b = true → lt b a = false)
    (htrans : ∀ a b c, lt a b = true → lt b c = true → lt a c = true) (x : α) :
    ∀ l : List α, l.Pairwise (fun a b => lt b a = false) →
      (insertBefore lt x l).Pairwise (fun a b => lt b a = false) := by
  intro l
  induction l with
  | nil => intro _; simp [insertBefore]
  | cons y ys ih =>
    intro hsort
    obtain ⟨hy, hys⟩ := List.pairwise_cons.mp hsort
    rw [insertBefore]
    split
    case _ hxy =>
      refine List.pairwise_cons.mpr ⟨?_, hsort⟩
      intro b hb
      rcases List.mem_cons.mp hb with rfl | hb
      · exact hasymm _ _ hxy
      · cases hzx : lt b x with
        | false => rfl
        | true => exact absurd (htrans b x y hzx hxy) (by rw [hy b hb]; simp)
    case _ hxy =>
      refine List.pairwise_cons.mpr ⟨?_, ih hys⟩
      intro b hb
      rcases (mem_insertBefore lt x ys b).mp hb with rfl | hb
      · exact Bool.eq_false_iff.mpr hxy
      · exact hy b hb

theorem sortStable_sorted {α : Type _} (lt : α → α → Bool)
    (hasymm : ∀ a b, lt a b = true → lt b a = false)
    (htrans : ∀ a b c, lt a b = true → lt b c = true → lt a c = true) (l : List α) :
    (sortStable lt l).Pairwise (fun a b => lt b a = false) :=
  foldl_preserve (fun acc => acc.Pairwise (fun a b => lt b a = false))
    (fun acc x => insertBefore lt x acc)
    (fun acc x hacc => insertBefore_sorted lt hasymm htrans x acc hacc)
    l [] (List.Pairwise.nil)

theorem insertBefore_append {α : Type _} (lt : α → α → Bool) (x : α) :
    ∀ l : List α, (∀ a ∈ l, lt x a = false) → insertBefore lt x l = l ++ [x] := by
  intro l
  induction l with
  | nil => intro _; rfl
  | cons y ys ih =>
    intro h
    rw [insertBefore, if_neg (by rw [h y (by simp)]; simp),
      ih (fun a ha => h a (List.mem_cons_of_mem y ha))]
    rfl

theorem foldl_insertBefore_of_sorted {α : Type _} (lt : α → α → Bool) :
    ∀ (l acc : List α), (∀ a ∈ acc, ∀ b ∈ l, lt b a = false) →
      l.Pairwise (fun a b => lt b a = false) →
      l.foldl (fun acc x => insertBefore lt x acc) acc = acc ++ l := by
  intro l
  induction l with
  | nil => intro acc _ _; simp
  | cons x xs ih =>
    intro acc hcross hsort
    obtain ⟨hx, hxs⟩ := List.pairwise_cons.mp hsort
    rw [List.foldl_cons,
      insertBefore_append lt x acc (fun a ha => hcross a ha x (by simp)),
      ih (acc ++ [x]) ?_ hxs]
    · rw [List.append_assoc]
      rfl
    · intro a ha b hb
      rcases List.mem_append.mp ha with ha | ha
      · exact hcross a ha b (List.mem_cons_of_mem x hb)
      · rw [List.mem_singleton.mp ha]
        exact hx b hb

theorem sortStable_of_sorted {α : Type _} (lt : α → α → Bool) (l : List α)
    (hsort : l.Pairwise (fun a b => lt b a = false)) : sortStable lt l = l := by
  have := foldl_insertBefore_of_sorted lt l [] (by simp) hsort
  simpa [sortStable] using this

theorem pySortByDate_perm (l : List Transaction) : (pySortByDate l).Perm l :=
  sortStable_perm _ l

theorem pySortByDate_sorted (l : List Transaction) :
    (pySortByDate l).Pairwise (fun a b => pyStrLt b.date a.date = false) :=
  sortStable_sorted (fun (t1 t2 : Transaction) => pyStrLt t1.date t2.date)
    (fun _ _ h => charListLt_asymm h)
    (fun _ _ _ h1 h2 => charListLt_trans h1 h2) l

theorem pySortByDate_of_sorted (l : List Transaction)
    (hsort : l.Pairwise (fun a b => pyStrLt b.date a.date = false)) : pySortByDate l = l :=
  sortStable_of_sorted (fun (t1 t2 : Transaction) => pyStrLt t1.date t2.date) l hsort

/-- Python dict accumulation `d[key] = d.get(key, 0) + value` on an
insertion-ordered association list. -/
def bumpAssoc {κ : Type _} [DecidableEq κ] : List (κ × ℚ) → κ → ℚ → List (κ × ℚ)
  | [], k, v => [(k, v)]
  | (k0, v0) :: rest, k, v =>
    if k0 = k then (k0, v0 + v) :: rest else (k0, v0) :: bumpAssoc rest k v

/-- The summary and breakdown fields of `generate_incremental_insights`
(lines 233-290). Fields not examined by any claim (date range, average
confidence, top-5 lists, low-confidence count) are not modelled. The
degenerate `{"summary": {"total_transactions": 0}}` payload returned for an
empty input (line 236), which carries none of these fields, is modelled as
`none`. -/
structure IncrementalInsights where
  total_transactions : Nat
  total_income : ℚ
  total_expenses : ℚ
  net_cash_flow : ℚ
  income_breakdown : List (Option String × ℚ)
  expense_breakdown : List (Option String × ℚ)
deriving DecidableEq

/-- One iteration of the breakdown loop of `generate_incremental_insights`
(lines 258-262): income-typed transactions add their signed amount to
`income_breakdown`, every other transaction adds its absolute amount to
`expense_breakdown`, keyed by the raw optional category. -/
def incBreakdownStep (acc : List (Option String × ℚ) × List (Option String × ℚ))
    (tx : Transaction) : List (Option String × ℚ) × List (Option String × ℚ) :=
  if tx.type == some "income" then (bumpAssoc acc.1 tx.category tx.amount, acc.2)
  else (acc.1, bumpAssoc acc.2 tx.category |tx.amount|)

/-- `generate_incremental_insights` (lines 233-290): `total_income` is the
signed sum over transactions typed exactly `"income"`, `total_expenses` the
absolute value of the signed sum over transactions typed exactly
`"expense"`; the breakdown loop sends income-typed transactions (signed) to
`income_breakdown` and every other transaction (absolute value, keyed by its
raw optional category) to `expense_breakdown`. -/
def generate_incremental_insights (transactions : List Transaction) :
    Option IncrementalInsights :=
  if transactions = [] then none
  else
    let total_income :=
      ((transactions.filter (fun tx => tx.type == some "income")).map (fun tx => tx.amount)).sum
    let total_expenses :=
      |((transactions.filter (fun tx => tx.type == some "expense")).map (fun tx => tx.amount)).sum|
    let breakdowns := transactions.foldl incBreakdownStep ([], [])
    some
      { total_transactions := transactions.length
        total_income := total_income
        total_expenses := total_expenses
        net_cash_flow := total_income - total_expenses
        income_breakdown := breakdowns.1
        expense_breakdown := breakdowns.2 }

/-- Python `transaction.category or "Uncategorized"` (line 639): `None` and
the empty string are both falsy. -/
def catKey (c : Option String) : String :=
  match c with
  | none => "Uncategorized"
  | some s => if s = "" then "Uncategorized" else s

/-- Breakdown-dict accumulation of `generate_insights` (lines 667-687): a
fresh `{"amount": 0, "count": 0}` entry is created on first sight, then
`amount += v` and `count += 1`. -/
def bumpAssoc2 : List (String × ℚ × Nat) → String → ℚ → List (String × ℚ × Nat)
  | [], k, v => [(k, v, 1)]
  | (k0, v0, c0) :: rest, k, v =>
    if k0 = k then (k0, v0 + v, c0 + 1) :: rest else (k0, v0, c0) :: bumpAssoc2 rest k v

/-- One iteration of the per-transaction loop of `generate_insights`
(lines 637-695), restricted to the claim-relevant state
`(total_income, total_expenses, income_breakdown, expense_breakdown)`:
income-typed transactions feed the income totals, every other transaction
feeds the expense totals, always with `abs(amount)` and the
`or "Uncategorized"` category key. -/
def insightsStep (st : ℚ × ℚ × List (String × ℚ × Nat) × List (String × ℚ × Nat))
    (transaction : Transaction) :
    ℚ × ℚ × List (String × ℚ × Nat) × List (String × ℚ × Nat) :=
  let amount := |transaction.amount|
  let category := catKey transaction.category
  if transaction.type == some "income" then
    (st.1 + amount, st.2.1, bumpAssoc2 st.2.2.1 category amount, st.2.2.2)
  else
    (st.1, st.2.1 + amount, st.2.2.1, bumpAssoc2 st.2.2.2 category amount)

/-- The claim-relevant fields of the full `generate_insights` structure
(lines 603-723). `category_insights` entries are
`(category, percentage, average_amount)`. Monthly analysis, date range,
average confidence, top-10 lists and the low-confidence list are not
examined by any claim and are not modelled. -/
structure Insights where
  total_transactions : Nat
  total_income : ℚ
  total_expenses : ℚ
  net_cash_flow : ℚ
  income_breakdown : List (String × ℚ × Nat)
  expense_breakdown : List (String × ℚ × Nat)
  category_insights : List (String × ℚ × ℚ)
deriving DecidableEq

/-- `generate_insights` (lines 603-723). The function first sorts the
caller's list in place by date (line 627) — modelled by returning the
post-call list as the second component — then accumulates totals and
breakdowns over the sorted list, then derives `category_insights` with the
`total_expenses > 0` and `count > 0` guards (lines 715-721). An empty input
returns the initial zero structure before sorting. -/
def generate_insights (transactions : List Transaction) : Insights × List Transaction :=
  if transactions = [] then
    ({ total_transactions := 0, total_income := 0, total_expenses := 0, net_cash_flow := 0,
       income_breakdown := [], expense_breakdown := [], category_insights := [] },
     transactions)
  else
    let sorted := pySortByDate transactions
    let st := sorted.foldl insightsStep (0, 0, [], [])
    let total_income := st.1
    let total_expenses := st.2.1
    let category_insights := st.2.2.2.map (fun e =>
      (e.1, if total_expenses > 0 then e.2.1 / total_expenses * 100 else 0,
            if e.2.2 > 0 then e.2.1 / (e.2.2 : ℚ) else 0))
    ({ total_transactions := transactions.length
       total_income := total_income
       total_expenses := total_expenses
       net_cash_flow := total_income - total_expenses
       income_breakdown := st.2.2.1
       expense_breakdown := st.2.2.2
       category_insights := category_insights },
     sorted)

example :
    (generate_insights
      [⟨"2024-01-02", "rent", -400, some "Housing & Rent", some "expense", some 1⟩,
       ⟨"2024-01-01", "salary", 1000, some "Salary", some "income", some 1⟩]).1.net_cash_flow
      = 600 := by decide

example :
    (generate_insights
      [⟨"2024-01-02", "rent", -400, some "Housing & Rent", some "expense", some 1⟩,
       ⟨"2024-01-01", "salary", 1000, some "Salary", some "income", some 1⟩]).2
      = [⟨"2024-01-01", "salary", 1000, some "Salary", some "income", some 1⟩,
         ⟨"2024-01-02", "rent", -400, some "Housing & Rent", some "expense", some 1⟩] := by decide

example :
    (generate_insights
      [⟨"2024-01-01", "a", -10, some "Other", some "expense", some 1⟩,
       ⟨"2024-01-02", "b", -30, some "Other", some "expense", some 1⟩]).1.category_insights
      = [("Other", 100, 20)] := by decide

example :
    (generate_incremental_insights
      [⟨"2024-01-01", "a", 7, some "X", none, some 1⟩]).map
        IncrementalInsights.total_expenses = some 0 := by decide

/-- Spec-side sum: absolute amounts over income-typed transactions. -/
def sumAbsIncome (transactions : List Transaction) : ℚ :=
  ((transactions.filter (fun tx => tx.type == some "income")).map (fun tx => |tx.amount|)).sum

/-- Spec-side sum: absolute amounts over every transaction not typed exactly
`"income"` (including unset or arbitrary types). -/
def sumAbsNonIncome (transactions : List Transaction) : ℚ :=
  ((transactions.filter (fun tx => !(tx.type == some "income"))).map (fun tx => |tx.amount|)).sum

/-- Signed sum over income-typed transactions. -/
def sumIncomeSigned (transactions : List Transaction) : ℚ :=
  ((transactions.filter (fun tx => tx.type == some "income")).map (fun tx => tx.amount)).sum

/-- Signed sum over expense-typed transactions. -/
def sumExpenseSigned (transactions : List Transaction) : ℚ :=
  ((transactions.filter (fun tx => tx.type == some "expense")).map (fun tx => tx.amount)).sum

/-- Total amount held in an optional-key breakdown. -/
def assocSum {κ : Type _} (l : List (κ × ℚ)) : ℚ :=
  (l.map (fun e => e.2)).sum

/-- Total amount held in an amount-and-count breakdown. -/
def assocSum2 (l : List (String × ℚ × Nat)) : ℚ :=
  (l.map (fun e => e.2.1)).sum

theorem bumpAssoc_sum {κ : Type _} [DecidableEq κ] :
    ∀ (l : List (κ × ℚ)) (k : κ) (v : ℚ), assocSum (bumpAssoc l k v) = assocSum l + v := by
  intro l
  induction l with
  | nil => intro k v; simp [bumpAssoc, assocSum]
  | cons e rest ih =>
    intro k v
    match e with
    | (k0, v0) =>
      rw [bumpAssoc]
      split
      · simp [assocSum]
        ring
      · simp only [assocSum, List.map_cons, List.sum_cons] at ih ⊢
        rw [ih]
        ring

theorem bumpAssoc2_sum :
    ∀ (l : List (String × ℚ × Nat)) (k : String) (v : ℚ),
      assocSum2 (bumpAssoc2 l k v) = assocSum2 l + v := by
  intro l
  induction l with
  | nil => intro k v; simp [bumpAssoc2, assocSum2]
  | cons e rest ih =>
    intro k v
    match e with
    | (k0, v0, c0) =>
      rw [bumpAssoc2]
      split
      · simp [assocSum2]
        ring
      · simp only [assocSum2, List.map_cons, List.sum_cons] at ih ⊢
        rw [ih]
        ring

theorem insightsStep_fold :
    ∀ (l : List Transaction) (st : ℚ × ℚ × List (String × ℚ × Nat) × List (String × ℚ × Nat)),
      (l.foldl insightsStep st).1 = st.1 + sumAbsIncome l ∧
      (l.foldl insightsStep st).2.1 = st.2.1 + sumAbsNonIncome l ∧
      assocSum2 (l.foldl insightsStep st).2.2.1 = assocSum2 st.2.2.1 + sumAbsIncome l ∧
      assocSum2 (l.foldl insightsStep st).2.2.2 = assocSum2 st.2.2.2 + sumAbsNonIncome l := by
  intro l
  induction l with
  | nil =>
    intro st
    simp [sumAbsIncome, sumAbsNonIncome]
  | cons a rest ih =>
    intro st
    rw [List.foldl_cons]
    have hstep := ih (insightsStep st a)
    by_cases h : (a.type == some "income") = true
    · have hsa : sumAbsIncome (a :: rest) = |a.amount| + sumAbsIncome rest := by
        simp [sumAbsIncome, List.filter_cons, h]
      have hsn : sumAbsNonIncome (a :: rest) = sumAbsNonIncome rest := by
        simp [sumAbsNonIncome, List.filter_cons, h]
      have hst : insightsStep st a
          = (st.1 + |a.amount|, st.2.1, bumpAssoc2 st.2.2.1 (catKey a.category) |a.amount|,
             st.2.2.2) := by
        rw [insightsStep]
        simp [h]
      rw [hsa, hsn]
      refine ⟨?_, ?_, ?_, ?_⟩
      · rw [hstep.1, hst]; ring
      · rw [hstep.2.1, hst]
      · rw [hstep.2.2.1, hst]
        dsimp only
        rw [bumpAssoc2_sum]
        ring
      · rw [hstep.2.2.2, hst]
    · have hsa : sumAbsIncome (a :: rest) = sumAbsIncome rest := by
        simp [sumAbsIncome, List.filter_cons, h]
      have hsn : sumAbsNonIncome (a :: rest) = |a.amount| + sumAbsNonIncome rest := by
        simp [sumAbsNonIncome, List.filter_cons, h]
      have hst : insightsStep st a
          = (st.1, st.2.1 + |a.amount|, st.2.2.1,
             bumpAssoc2 st.2.2.2 (catKey a.category) |a.amount|) := by
        rw [insightsStep]
        simp [h]
      rw [hsa, hsn]
      refine ⟨?_, ?_, ?_, ?_⟩
      · rw [hstep.1, hst]
      · rw [hstep.2.1, hst]; ring
      · rw [hstep.2.2.1, hst]
      · rw [hstep.2.2.2, hst]
        dsimp only
        rw [bumpAssoc2_sum]
        ring

theorem incBreakdownStep_fold :
    ∀ (l : List Transaction) (acc : List (Option String × ℚ) × List (Option String × ℚ)),
      assocSum (l.foldl incBreakdownStep acc).1 = assocSum acc.1 + sumIncomeSigned l ∧
      assocSum (l.foldl incBreakdownStep acc).2 = assocSum acc.2 + sumAbsNonIncome l := by
  intro l
  induction l with
  | nil =>
    intro acc
    simp [sumIncomeSigned, sumAbsNonIncome]
  | cons a rest ih =>
    intro acc
    rw [List.foldl_cons]
    have hstep := ih (incBreakdownStep acc a)
    by_cases h : (a.type == some "income") = true
    · have hsi : sumIncomeSigned (a :: rest) = a.amount + sumIncomeSigned rest := by
        simp [sumIncomeSigned, List.filter_cons, h]
      have hsn : sumAbsNonIncome (a :: rest) = sumAbsNonIncome rest := by
        simp [sumAbsNonIncome, List.filter_cons, h]
      have hst : incBreakdownStep acc a = (bumpAssoc acc.1 a.category a.amount, acc.2) := by
        rw [incBreakdownStep]
        simp [h]
      rw [hsi, hsn]
      constructor
      · rw [hstep.1, hst]
        dsimp only
        rw [bumpAssoc_sum]
        ring
      · rw [hstep.2, hst]
    · have hsi : sumIncomeSigned (a :: rest) = sumIncomeSigned rest := by
        simp [sumIncomeSigned, List.filter_cons, h]
      have hsn : sumAbsNonIncome (a :: rest) = |a.amount| + sumAbsNonIncome rest := by
        simp [sumAbsNonIncome, List.filter_cons, h]
      have hst : incBreakdownStep acc a = (acc.1, bumpAssoc acc.2 a.category |a.amount|) := by
        rw [incBreakdownStep]
        simp [h]
      rw [hsi, hsn]
      constructor
      · rw [hstep.1, hst]
      · rw [hstep.2, hst]
        dsimp only
        rw [bumpAssoc_sum]
        ring

theorem perm_filter_map_sum (p : Transaction → Bool) (f : Transaction → ℚ)
    {l l' : List Transaction} (h : l.Perm l') :
    ((l.filter p).map f).sum = ((l'.filter p).map f).sum :=
  ((h.filter p).map f).sum_eq

theorem generate_insights_eq (transactions : List Transaction) (h : transactions ≠ []) :
    generate_insights transactions =
      ({ total_transactions := transactions.length
         total_income := ((pySortByDate transactions).foldl insightsStep (0, 0, [], [])).1
         total_expenses := ((pySortByDate transactions).foldl insightsStep (0, 0, [], [])).2.1
         net_cash_flow := ((pySortByDate transactions).foldl insightsStep (0, 0, [], [])).1
           - ((pySortByDate transactions).foldl insightsStep (0, 0, [], [])).2.1
         income_breakdown := ((pySortByDate transactions).foldl insightsStep (0, 0, [], [])).2.2.1
         expense_breakdown := ((pySortByDate transactions).foldl insightsStep (0, 0, [], [])).2.2.2
         category_insights :=
           ((pySortByDate transactions).foldl insightsStep (0, 0, [], [])).2.2.2.map (fun e =>
             (e.1,
              if ((pySortByDate transactions).foldl insightsStep (0, 0, [], [])).2.1 > 0 then
                e.2.1 / ((pySortByDate transactions).foldl insightsStep (0, 0, [], [])).2.1 * 100
              else 0,
              if e.2.2 > 0 then e.2.1 / (e.2.2 : ℚ) else 0)) },
       pySortByDate transactions) := by
  rw [generate_insights, if_neg h]

theorem gi_total_income (transactions : List Transaction) :
    (generate_insights transactions).1.total_income = sumAbsIncome transactions := by
  by_cases h : transactions = []
  · subst h; rfl
  · rw [generate_insights_eq transactions h]
    dsimp only
    rw [(insightsStep_fold (pySortByDate transactions) (0, 0, [], [])).1, zero_add]
    exact perm_filter_map_sum _ _ (pySortByDate_perm transactions)

theorem gi_total_expenses (transactions : List Transaction) :
    (generate_insights transactions).1.total_expenses = sumAbsNonIncome transactions := by
  by_cases h : transactions = []
  · subst h; rfl
  · rw [generate_insights_eq transactions h]
    dsimp only
    rw [(insightsStep_fold (pySortByDate transactions) (0, 0, [], [])).2.1, zero_add]
    exact perm_filter_map_sum _ _ (pySortByDate_perm transactions)

theorem gi_net_cash_flow (transactions : List Transaction) :
    (generate_insights transactions).1.net_cash_flow
      = sumAbsIncome transactions - sumAbsNonIncome transactions := by
  by_cases h : transactions = []
  · subst h; rfl
  · rw [generate_insights_eq transactions h]
    dsimp only
    rw [(insightsStep_fold (pySortByDate transactions) (0, 0, [], [])).1,
      (insightsStep_fold (pySortByDate transactions) (0, 0, [], [])).2.1, zero_add, zero_add,
      show sumAbsIncome (pySortByDate transactions) = sumAbsIncome transactions from
        perm_filter_map_sum _ _ (pySortByDate_perm transactions),
      show sumAbsNonIncome (pySortByDate transactions) = sumAbsNonIncome transactions from
        perm_filter_map_sum _ _ (pySortByDate_perm transactions)]

theorem gi_expense_breakdown_sum (transactions : List Transaction) :
    assocSum2 (generate_insights transactions).1.expense_breakdown
      = sumAbsNonIncome transactions := by
  by_cases h : transactions = []
  · subst h; rfl
  · rw [generate_insights_eq transactions h]
    dsimp only
    rw [(insightsStep_fold (pySortByDate transactions) (0, 0, [], [])).2.2.2]
    have : assocSum2 ([] : List (String × ℚ × Nat)) = 0 := rfl
    rw [this, zero_add]
    exact perm_filter_map_sum _ _ (pySortByDate_perm transactions)

theorem gi_income_breakdown_sum (transactions : List Transaction) :
    assocSum2 (generate_insights transactions).1.income_breakdown
      = sumAbsIncome transactions := by
  by_cases h : transactions = []
  · subst h; rfl
  · rw [generate_insights_eq transactions h]
    dsimp only
    rw [(insightsStep_fold (pySortByDate transactions) (0, 0, [], [])).2.2.1]
    have : assocSum2 ([] : List (String × ℚ × Nat)) = 0 := rfl
    rw [this, zero_add]
    exact perm_filter_map_sum _ _ (pySortByDate_perm transactions)

theorem inc_insights_eq (transactions : List Transaction) (h : transactions ≠ []) :
    generate_incremental_insights transactions =
      some
        { total_transactions := transactions.length
          total_income := sumIncomeSigned transactions
          total_expenses := |sumExpenseSigned transactions|
          net_cash_flow := sumIncomeSigned transactions - |sumExpenseSigned transactions|
          income_breakdown := (transactions.foldl incBreakdownStep ([], [])).1
          expense_breakdown := (transactions.foldl incBreakdownStep ([], [])).2 } := by
  rw [generate_incremental_insights, if_neg h]
  rfl

theorem sum_map_neg (l : List Transaction) (f : Transaction → ℚ) :
    (l.map (fun tx => -(f tx))).sum = -((l.map f).sum) := by
  induction l with
  | nil => simp
  | cons a rest ih => simp [ih]; ring

theorem sumAbsIncome_of_nonneg (l : List Transaction)
    (h : ∀ tx ∈ l, tx.type = some "income" → 0 ≤ tx.amount) :
    sumAbsIncome l = sumIncomeSigned l := by
  unfold sumAbsIncome sumIncomeSigned
  refine congrArg List.sum (List.map_congr_left ?_)
  intro tx htx
  have hm := List.mem_filter.mp htx
  exact abs_of_nonneg (h tx hm.1 (by simpa using hm.2))

theorem sumAbsNonIncome_of_typed (l : List Transaction)
    (hty : ∀ tx ∈ l, tx.type = some "income" ∨ tx.type = some "expense")
    (hneg : ∀ tx ∈ l, tx.type = some "expense" → tx.amount ≤ 0) :
    sumAbsNonIncome l = -(sumExpenseSigned l) := by
  unfold sumAbsNonIncome sumExpenseSigned
  rw [List.filter_congr (fun tx htx => ?_)]
  · rw [show ((l.filter (fun tx => tx.type == some "expense")).map (fun tx => |tx.amount|))
        = ((l.filter (fun tx => tx.type == some "expense")).map (fun tx => -(tx.amount))) from
      List.map_congr_left (fun tx htx => ?_), sum_map_neg]
    have hm := List.mem_filter.mp htx
    exact abs_of_nonpos (hneg tx hm.1 (by simpa using hm.2))
  · rcases hty tx htx with hi | he
    · simp [hi]
    · simp [he]

/-- C6 counterexample: an income-typed transaction with a negative amount.
The incremental variant sums income amounts *signed* (giving -5), while the
claim demands the sum of absolute amounts (5). -/
theorem incremental_income_signed_cex :
    (generate_incremental_insights
        [⟨"2024-01-01", "z", -5, some "Salary", some "income", some 1⟩]).map
      IncrementalInsights.total_income = some (-5) ∧
    sumAbsIncome [⟨"2024-01-01", "z", -5, some "Salary", some "income", some 1⟩] = 5 ∧
    ((-5 : ℚ) ≠ 5) :=
  ⟨by decide, by decide, by norm_num⟩

/-- C6 (amended): the full variant computes total_income as the sum of
absolute amounts over income-typed transactions, total_expenses as the sum
of absolute amounts over all remaining transactions, and their difference
as net cash flow. The incremental variant instead uses the *signed* income
sum and the *absolute value of the signed sum* over expense-typed
transactions only. When every transaction is typed income or expense,
income amounts are non-negative, and expense amounts are non-positive, the
two variants agree, and for income summing to 1000 with expense summing to
-400 both yield total_income 1000, total_expenses 400, net_cash_flow 600. -/
theorem aggregation_totals (transactions : List Transaction) (hne : transactions ≠ []) :
    ((generate_insights transactions).1.total_income = sumAbsIncome transactions ∧
     (generate_insights transactions).1.total_expenses = sumAbsNonIncome transactions ∧
     (generate_insights transactions).1.net_cash_flow
        = sumAbsIncome transactions - sumAbsNonIncome transactions) ∧
    (∃ inc, generate_incremental_insights transactions = some inc ∧
      inc.total_income = sumIncomeSigned transactions ∧
      inc.total_expenses = |sumExpenseSigned transactions| ∧
      inc.net_cash_flow = sumIncomeSigned transactions - |sumExpenseSigned transactions|) ∧
    ((∀ tx ∈ transactions, tx.type = some "income" ∨ tx.type = some "expense") →
     (∀ tx ∈ transactions, tx.type = some "income" → 0 ≤ tx.amount) →
     (∀ tx ∈ transactions, tx.type = some "expense" → tx.amount ≤ 0) →
     sumIncomeSigned transactions = 1000 →
     sumExpenseSigned transactions = -400 →
     ((generate_insights transactions).1.total_income = 1000 ∧
      (generate_insights transactions).1.total_expenses = 400 ∧
      (generate_insights transactions).1.net_cash_flow = 600 ∧
      ∃ inc, generate_incremental_insights transactions = some inc ∧
        inc.total_income = 1000 ∧ inc.total_expenses = 400 ∧ inc.net_cash_flow = 600)) := by
  refine ⟨⟨gi_total_income transactions, gi_total_expenses transactions,
    gi_net_cash_flow transactions⟩,
    ⟨_, inc_insights_eq transactions hne, rfl, rfl, rfl⟩, ?_⟩
  intro hty hpos hneg hsumi hsume
  have habs : sumAbsIncome transactions = 1000 := by
    rw [sumAbsIncome_of_nonneg transactions hpos, hsumi]
  have habn : sumAbsNonIncome transactions = 400 := by
    rw [sumAbsNonIncome_of_typed transactions hty hneg, hsume]
    norm_num
  obtain ⟨inc, hinc, hti, hte, hnet⟩ :
      ∃ inc, generate_incremental_insights transactions = some inc ∧
        inc.total_income = sumIncomeSigned transactions ∧
        inc.total_expenses = |sumExpenseSigned transactions| ∧
        inc.net_cash_flow = sumIncomeSigned transactions - |sumExpenseSigned transactions| :=
    ⟨_, inc_insights_eq transactions hne, rfl, rfl, rfl⟩
  refine ⟨by rw [gi_total_income transactions, habs],
    by rw [gi_total_expenses transactions, habn],
    by rw [gi_net_cash_flow transactions, habs, habn]; norm_num,
    inc, hinc, by rw [hti, hsumi], by rw [hte, hsume]; norm_num,
    by rw [hnet, hsumi, hsume]; norm_num⟩

/-- Witness for the amended C6 at a two-transaction input with income 1000
and expense -400. -/
theorem aggregation_totals_witness :
    (generate_insights
        [⟨"2024-01-01", "salary", 1000, some "Salary", some "income", some 1⟩,
         ⟨"2024-01-02", "rent", -400, some "Housing & Rent", some "expense", some 1⟩]).1.total_income
      = 1000 ∧
    (generate_insights
        [⟨"2024-01-01", "salary", 1000, some "Salary", some "income", some 1⟩,
         ⟨"2024-01-02", "rent", -400, some "Housing & Rent", some "expense", some 1⟩]).1.total_expenses
      = 400 ∧
    (generate_insights
        [⟨"2024-01-01", "salary", 1000, some "Salary", some "income", some 1⟩,
         ⟨"2024-01-02", "rent", -400, some "Housing & Rent", some "expense", some 1⟩]).1.net_cash_flow
      = 600 ∧
    ∃ inc, generate_incremental_insights
        [⟨"2024-01-01", "salary", 1000, some "Salary", some "income", some 1⟩,
         ⟨"2024-01-02", "rent", -400, some "Housing & Rent", some "expense", some 1⟩] = some inc ∧
      inc.total_income = 1000 ∧ inc.total_expenses = 400 ∧ inc.net_cash_flow = 600 :=
  (aggregation_totals _ (by decide)).2.2 (by decide) (by decide) (by decide)
    (by decide) (by decide)

theorem sumAbsNonIncome_nonneg (transactions : List Transaction) :
    0 ≤ sumAbsNonIncome transactions := by
  refine List.sum_nonneg (fun x hx => ?_)
  obtain ⟨tx, _, rfl⟩ := List.mem_map.mp hx
  exact abs_nonneg _

/-- C7: percentage guard of `generate_insights`. When total expenses are 0
every category's percentage in `category_insights` is 0 (the division is
guarded, never performed); otherwise each expense-breakdown entry appears in
`category_insights` with percentage equal to its amount divided by total
expenses times 100. -/
theorem insights_percentage_guard (transactions : List Transaction) :
    ((generate_insights transactions).1.total_expenses = 0 →
      ∀ p ∈ (generate_insights transactions).1.category_insights, p.2.1 = 0) ∧
    ((generate_insights transactions).1.total_expenses ≠ 0 →
      ∀ p ∈ (generate_insights transactions).1.expense_breakdown,
        ∃ avg, (p.1, p.2.1 / (generate_insights transactions).1.total_expenses * 100, avg)
          ∈ (generate_insights transactions).1.category_insights) := by
  by_cases h : transactions = []
  · subst h
    exact ⟨fun _ p hp => absurd hp (by simp [generate_insights]),
      fun _ p hp => absurd hp (by simp [generate_insights])⟩
  · rw [generate_insights_eq transactions h]
    dsimp only
    constructor
    · intro h0 p hp
      obtain ⟨e, _, rfl⟩ := List.mem_map.mp hp
      rw [h0]
      norm_num
    · intro h0 p hp
      refine ⟨if p.2.2 > 0 then p.2.1 / (p.2.2 : ℚ) else 0, ?_⟩
      have hnn : 0 ≤ ((pySortByDate transactions).foldl insightsStep (0, 0, [], [])).2.1 := by
        rw [(insightsStep_fold (pySortByDate transactions) (0, 0, [], [])).2.1, zero_add]
        exact sumAbsNonIncome_nonneg (pySortByDate transactions)
      have hpos : ((pySortByDate transactions).foldl insightsStep (0, 0, [], [])).2.1 > 0 :=
        lt_of_le_of_ne hnn (Ne.symm h0)
      have hmem := List.mem_map_of_mem (fun (e : String × ℚ × Nat) =>
        (e.1,
         if ((pySortByDate transactions).foldl insightsStep (0, 0, [], [])).2.1 > 0 then
           e.2.1 / ((pySortByDate transactions).foldl insightsStep (0, 0, [], [])).2.1 * 100
         else 0,
         if e.2.2 > 0 then e.2.1 / (e.2.2 : ℚ) else 0)) hp
      dsimp only at hmem
      rw [if_pos hpos] at hmem
      exact hmem

/-- Witness for C7: a zero-amount expense produces a breakdown entry whose
percentage is the guarded 0. -/
theorem insights_percentage_guard_witness :
    (generate_insights [⟨"2024-01-01", "x", 0, some "Other", some "expense", some 1⟩]).1.total_expenses
        = 0 ∧
    ∀ p ∈ (generate_insights
        [⟨"2024-01-01", "x", 0, some "Other", some "expense", some 1⟩]).1.category_insights,
      p.2.1 = 0 :=
  ⟨by decide,
   (insights_percentage_guard [⟨"2024-01-01", "x", 0, some "Other", some "expense", some 1⟩]).1
     (by decide)⟩

/-- C9 counterexample: `generate_insights` sorts the caller's list in place
(`transactions.sort(key=lambda x: x.date)`), so for a list not already
sorted by date the caller's list differs after the call. -/
theorem insights_mutates_input_cex :
    (generate_insights
        [⟨"2024-02-01", "b", 1, some "Other", some "expense", some 1⟩,
         ⟨"2024-01-01", "a", 2, some "Other", some "expense", some 1⟩]).2
      ≠ [⟨"2024-02-01", "b", 1, some "Other", some "expense", some 1⟩,
         ⟨"2024-01-01", "a", 2, some "Other", some "expense", some 1⟩] ∧
    (generate_insights
        [⟨"2024-02-01", "b", 1, some "Other", some "expense", some 1⟩,
         ⟨"2024-01-01", "a", 2, some "Other", some "expense", some 1⟩]).2
      = [⟨"2024-01-01", "a", 2, some "Other", some "expense", some 1⟩,
         ⟨"2024-02-01", "b", 1, some "Other", some "expense", some 1⟩] :=
  ⟨by decide, by decide⟩

/-- C9 (amended): `generate_insights` returns its Insights value but sorts
the caller's list in place by date: after the call the list is a
permutation of the input sorted (stably) by date, with every transaction's
field values unchanged; when the input is already sorted by date the list
is unchanged and the call is observationally pure. -/
theorem insights_sorts_input (transactions : List Transaction) :
    ((generate_insights transactions).2).Perm transactions ∧
    ((generate_insights transactions).2).Pairwise
      (fun a b => pyStrLt b.date a.date = false) ∧
    (transactions.Pairwise (fun a b => pyStrLt b.date a.date = false) →
      (generate_insights transactions).2 = transactions) := by
  by_cases h : transactions = []
  · subst h
    exact ⟨List.Perm.refl _, List.Pairwise.nil, fun _ => rfl⟩
  · rw [generate_insights_eq transactions h]
    exact ⟨pySortByDate_perm transactions, pySortByDate_sorted transactions,
      fun hs => pySortByDate_of_sorted transactions hs⟩

/-- Witness for the amended C9: a date-sorted input comes back unchanged. -/
theorem insights_sorts_input_witness :
    (generate_insights
        [⟨"2024-01-01", "a", 2, some "Other", some "expense", some 1⟩,
         ⟨"2024-02-01", "b", 1, some "Other", some "expense", some 1⟩]).2
      = [⟨"2024-01-01", "a", 2, some "Other", some "expense", some 1⟩,
         ⟨"2024-02-01", "b", 1, some "Other", some "expense", some 1⟩] :=
  (insights_sorts_input
      [⟨"2024-01-01", "a", 2, some "Other", some "expense", some 1⟩,
       ⟨"2024-02-01", "b", 1, some "Other", some "expense", some 1⟩]).2.2
    (by decide)

/-- C10 counterexample: a transaction with `type = None` is added to the
incremental expense breakdown (5) but not to the incremental
`total_expenses` (0), which sums only transactions typed exactly
`"expense"` — against the claim that its absolute amount reaches
`total_expenses` in both variants. -/
theorem incremental_none_type_cex :
    (generate_incremental_insights
        [⟨"2024-01-01", "q", 5, some "X", none, some 1⟩]).map
      IncrementalInsights.total_expenses = some 0 ∧
    (generate_incremental_insights
        [⟨"2024-01-01", "q", 5, some "X", none, some 1⟩]).map
      (fun inc => assocSum inc.expense_breakdown) = some 5 ∧
    sumAbsNonIncome [⟨"2024-01-01", "q", 5, some "X", none, some 1⟩] = 5 ∧
    ((0 : ℚ) ≠ 5) :=
  ⟨by decide, by decide, by decide, by norm_num⟩

/-- C10 (amended): in the full variant every transaction not typed exactly
`"income"` (including unset or arbitrary types) contributes its absolute
amount to `total_expenses` and to the expense breakdown, and never to income
totals. In the incremental variant every non-income transaction contributes
its absolute amount to the expense breakdown, but `total_expenses` there
sums only transactions typed exactly `"expense"` (as the absolute value of
their signed sum); non-income transactions never reach income totals in
either variant. -/
theorem non_income_counted_as_expense (transactions : List Transaction)
    (hne : transactions ≠ []) :
    (generate_insights transactions).1.total_expenses = sumAbsNonIncome transactions ∧
    assocSum2 (generate_insights transactions).1.expense_breakdown
        = sumAbsNonIncome transactions ∧
    (generate_insights transactions).1.total_income = sumAbsIncome transactions ∧
    assocSum2 (generate_insights transactions).1.income_breakdown
        = sumAbsIncome transactions ∧
    ∃ inc, generate_incremental_insights transactions = some inc ∧
      assocSum inc.expense_breakdown = sumAbsNonIncome transactions ∧
      inc.total_expenses = |sumExpenseSigned transactions| ∧
      inc.total_income = sumIncomeSigned transactions ∧
      assocSum inc.income_breakdown = sumIncomeSigned transactions := by
  refine ⟨gi_total_expenses transactions, gi_expense_breakdown_sum transactions,
    gi_total_income transactions, gi_income_breakdown_sum transactions,
    _, inc_insights_eq transactions hne, ?_, rfl, rfl, ?_⟩
  · have := (incBreakdownStep_fold transactions ([], [])).2
    simpa [assocSum] using this
  · have := (incBreakdownStep_fold transactions ([], [])).1
    simpa [assocSum] using this

/-- Witness for the amended C10 at a mixed input with a type-less
transaction. -/
theorem non_income_counted_witness :
    (generate_insights
        [⟨"2024-01-01", "q", 5, some "X", none, some 1⟩,
         ⟨"2024-01-02", "salary", 10, some "Salary", some "income", some 1⟩]).1.total_expenses
      = sumAbsNonIncome
        [⟨"2024-01-01", "q", 5, some "X", none, some 1⟩,
         ⟨"2024-01-02", "salary", 10, some "Salary", some "income", some 1⟩] ∧
    (generate_insights
        [⟨"2024-01-01", "q", 5, some "X", none, some 1⟩,
         ⟨"2024-01-02", "salary", 10, some "Salary", some "income", some 1⟩]).1.total_income
      = sumAbsIncome
        [⟨"2024-01-01", "q", 5, some "X", none, some 1⟩,
         ⟨"2024-01-02", "salary", 10, some "Salary", some "income", some 1⟩] :=
  ⟨(non_income_counted_as_expense _ (by decide)).1,
   (non_income_counted_as_expense _ (by decide)).2.2.1⟩

/-- One `batch_complete` event of `categorize_transactions_streaming`
(lines 169-177 and 201-209). The `error` annotation of the failed-batch
event (line 230) is not modelled: `_categorize_batch` already absorbs every
backend failure in its own `except` (returning the fallback batch), so the
streaming loop's outer handler is unreachable for the failure modes the
oracle models, and no claim examines the field. -/
structure StreamEvent where
  batch_number : Nat
  total_batches : Nat
  progress_percentage : ℚ
  new_transactions : List Transaction
  total_processed : Nat
  insights : Option IncrementalInsights
deriving DecidableEq

/-- `total_batches = len(transactions) // batch_size + (1 if
len(transactions) % batch_size else 0)` (lines 158 and 182). -/
def totalBatchesOf (N : Nat) : Nat :=
  N / 20 + (if N % 20 = 0 then 0 else 1)

/-- The client-path streaming loop (lines 185-231), fuel-indexed; `i` is the
`range(0, len, 20)` loop variable, `acc` the `all_categorized` list.
Progress is `min(((i + len(batch)) / len(transactions)) * 100, 100)`
(line 195). -/
def streamLoopClient (backend : Nat → Option (List CategorizationResult)) (N totalB : Nat) :
    Nat → Nat → List Transaction → List Transaction → List StreamEvent
  | 0, _, _, _ => []
  | fuel + 1, i, acc, l =>
    match l with
    | [] => []
    | _ :: _ =>
      let batch := l.take 20
      let categorized := categorize_batch (backend (i / 20)) batch
      let allCat := acc ++ categorized
      { batch_number := i / 20 + 1
        total_batches := totalB
        progress_percentage := min (((i + batch.length : Nat) : ℚ) / (N : ℚ) * 100) 100
        new_transactions := categorized
        total_processed := allCat.length
        insights := generate_incremental_insights allCat } ::
      streamLoopClient backend N totalB fuel (i + 20) allCat (l.drop 20)

/-- The no-client streaming loop (lines 156-178): every batch
fallback-classified, progress `min(((i + batch_size) / len) * 100, 100)`
with the literal batch size 20 (line 173). -/
def streamLoopNoClient (N totalB : Nat) :
    Nat → Nat → List Transaction → List Transaction → List StreamEvent
  | 0, _, _, _ => []
  | fuel + 1, i, acc, l =>
    match l with
    | [] => []
    | _ :: _ =>
      let batch := l.take 20
      let categorized := batch.map fallback_categorize
      let allCat := acc ++ categorized
      { batch_number := i / 20 + 1
        total_batches := totalB
        progress_percentage := min (((i + 20 : Nat) : ℚ) / (N : ℚ) * 100) 100
        new_transactions := categorized
        total_processed := allCat.length
        insights := generate_incremental_insights allCat } ::
      streamLoopNoClient N totalB fuel (i + 20) allCat (l.drop 20)

/-- `categorize_transactions_streaming` (lines 152-231). -/
def categorize_transactions_streaming (clientAvailable : Bool)
    (backend : Nat → Option (List CategorizationResult)) (transactions : List Transaction) :
    List StreamEvent :=
  if clientAvailable then
    streamLoopClient backend transactions.length (totalBatchesOf transactions.length)
      transactions.length 0 [] transactions
  else
    streamLoopNoClient transactions.length (totalBatchesOf transactions.length)
      transactions.length 0 [] transactions

example :
    (categorize_transactions_streaming false (fun _ => none)
        [⟨"2024-01-01", "salary", 1000, none, none, none⟩,
         ⟨"2024-01-02", "x", -5, none, none, none⟩]).map
      StreamEvent.progress_percentage = [100] := by decide

example :
    (categorize_transactions_streaming true (fun _ => some [])
        [⟨"2024-01-01", "salary", 1000, none, none, none⟩]).map
      StreamEvent.batch_number = [1] := by decide

theorem categorize_batch_length (res : Option (List CategorizationResult))
    (batch : List Transaction) : (categorize_batch res batch).length = batch.length := by
  cases res <;> simp [categorize_batch, categorize_batch_success]

theorem streamLoopClient_nil (backend : Nat → Option (List CategorizationResult))
    (N totalB fuel i : Nat) (acc : List Transaction) :
    streamLoopClient backend N totalB fuel i acc [] = [] := by
  cases fuel <;> rfl

theorem streamLoopNoClient_nil (N totalB fuel i : Nat) (acc : List Transaction) :
    streamLoopNoClient N totalB fuel i acc [] = [] := by
  cases fuel <;> rfl

theorem streamLoopClient_cons (backend : Nat → Option (List CategorizationResult))
    (N totalB fuel i : Nat) (acc : List Transaction) (a : Transaction) (l' : List Transaction) :
    streamLoopClient backend N totalB (fuel + 1) i acc (a :: l') =
      { batch_number := i / 20 + 1
        total_batches := totalB
        progress_percentage :=
          min (((i + ((a :: l').take 20).length : Nat) : ℚ) / (N : ℚ) * 100) 100
        new_transactions := categorize_batch (backend (i / 20)) ((a :: l').take 20)
        total_processed :=
          (acc ++ categorize_batch (backend (i / 20)) ((a :: l').take 20)).length
        insights := generate_incremental_insights
          (acc ++ categorize_batch (backend (i / 20)) ((a :: l').take 20)) } ::
      streamLoopClient backend N totalB fuel (i + 20)
        (acc ++ categorize_batch (backend (i / 20)) ((a :: l').take 20)) ((a :: l').drop 20) :=
  rfl

theorem streamLoopNoClient_cons (N totalB fuel i : Nat) (acc : List Transaction)
    (a : Transaction) (l' : List Transaction) :
    streamLoopNoClient N totalB (fuel + 1) i acc (a :: l') =
      { batch_number := i / 20 + 1
        total_batches := totalB
        progress_percentage := min (((i + 20 : Nat) : ℚ) / (N : ℚ) * 100) 100
        new_transactions := ((a :: l').take 20).map fallback_categorize
        total_processed := (acc ++ ((a :: l').take 20).map fallback_categorize).length
        insights := generate_incremental_insights
          (acc ++ ((a :: l').take 20).map fallback_categorize) } ::
      streamLoopNoClient N totalB fuel (i + 20)
        (acc ++ ((a :: l').take 20).map fallback_categorize) ((a :: l').drop 20) :=
  rfl

theorem progress_sat {N : Nat} (hN : 0 < N) (i : Nat) :
    min (((i + 20 : Nat) : ℚ) / (N : ℚ) * 100) 100
      = min (((min (i + 20) N : Nat) : ℚ) / (N : ℚ) * 100) 100 := by
  by_cases h : i + 20 ≤ N
  · rw [min_eq_left h]
  · have hmr : min (i + 20) N = N := min_eq_right (le_of_not_le h)
    rw [hmr]
    have hNQ : (0 : ℚ) < (N : ℚ) := by exact_mod_cast hN
    rw [div_self (ne_of_gt hNQ), one_mul, min_self]
    refine min_eq_right ?_
    have hle : (N : ℚ) ≤ ((i + 20 : Nat) : ℚ) := by exact_mod_cast le_of_not_le h
    have hdiv : (1 : ℚ) ≤ ((i + 20 : Nat) : ℚ) / (N : ℚ) := (one_le_div hNQ).mpr hle
    calc (100 : ℚ) = 1 * 100 := by norm_num
    _ ≤ ((i + 20 : Nat) : ℚ) / (N : ℚ) * 100 :=
        mul_le_mul_of_nonneg_right hdiv (by norm_num)

theorem streamLoopClient_spec (backend : Nat → Option (List CategorizationResult))
    (N totalB : Nat) :
    ∀ (fuel : Nat) (l : List Transaction) (i : Nat) (acc : List Transaction),
      l.length ≤ fuel → i = acc.length → i + l.length = N →
      (streamLoopClient backend N totalB fuel i acc l).length = (l.length + 19) / 20 ∧
      ∀ (j : Nat) (hj : j < (streamLoopClient backend N totalB fuel i acc l).length),
        (streamLoopClient backend N totalB fuel i acc l)[j].batch_number = i / 20 + j + 1 ∧
        (streamLoopClient backend N totalB fuel i acc l)[j].total_processed
          = min (i + (j + 1) * 20) N ∧
        (streamLoopClient backend N totalB fuel i acc l)[j].progress_percentage
          = min (((min (i + (j + 1) * 20) N : Nat) : ℚ) / (N : ℚ) * 100) 100 := by
  intro fuel
  induction fuel with
  | zero =>
    intro l i acc hf _ _
    have hl : l = [] := List.length_eq_zero.mp (Nat.le_zero.mp hf)
    subst hl
    exact ⟨rfl, fun j hj => absurd hj (by simp [streamLoopClient_nil])⟩
  | succ fuel ih =>
    intro l i acc hf hacc hsum
    match l with
    | [] => exact ⟨rfl, fun j hj => absurd hj (by simp [streamLoopClient_nil])⟩
    | a :: l' =>
      rw [streamLoopClient_cons]
      have hbl : ((a :: l').take 20).length = min 20 (a :: l').length := List.length_take 20 _
      have hcl : (categorize_batch (backend (i / 20)) ((a :: l').take 20)).length
          = min 20 (a :: l').length := by rw [categorize_batch_length, hbl]
      have hal : (acc ++ categorize_batch (backend (i / 20)) ((a :: l').take 20)).length
          = i + min 20 (a :: l').length := by
        rw [List.length_append, hcl, hacc]
      have hminN : i + min 20 (a :: l').length = min (i + 1 * 20) N := by omega
      by_cases hL : (a :: l').length ≤ 20
      · have hdrop : (a :: l').drop 20 = [] := List.drop_eq_nil_of_le hL
        rw [hdrop, streamLoopClient_nil]
        have hL' : l'.length + 1 ≤ 20 := by simpa using hL
        refine ⟨by simp; omega, ?_⟩
        intro j hj
        have hj0 : j = 0 := by simpa using Nat.lt_one_iff.mp (by simpa using hj)
        subst hj0
        refine ⟨by simp, ?_, ?_⟩
        · rw [List.getElem_cons_zero]
          dsimp only
          rw [hal, hminN]
        · rw [List.getElem_cons_zero]
          dsimp only
          rw [show (i + ((a :: l').take 20).length : Nat) = min (i + (0 + 1) * 20) N from by
            rw [hbl]; omega]
      · have hfuel' : ((a :: l').drop 20).length ≤ fuel := by
          rw [List.length_drop]
          simp only [List.length_cons] at hf ⊢
          omega
        have hacc' : i + 20 = (acc ++ categorize_batch (backend (i / 20)) ((a :: l').take 20)).length := by
          rw [hal]
          omega
        have hsum' : (i + 20) + ((a :: l').drop 20).length = N := by
          rw [List.length_drop]
          simp only [List.length_cons] at hsum ⊢
          omega
        obtain ⟨ihlen, ihget⟩ := ih ((a :: l').drop 20) (i + 20)
          (acc ++ categorize_batch (backend (i / 20)) ((a :: l').take 20)) hfuel' hacc' hsum'
        constructor
        · rw [List.length_cons, ihlen, List.length_drop]
          simp only [List.length_cons] at hL ⊢
          omega
        · intro j hj
          match j with
          | 0 =>
            refine ⟨by simp, ?_, ?_⟩
            · rw [List.getElem_cons_zero]
              dsimp only
              rw [hal, hminN]
            · rw [List.getElem_cons_zero]
              dsimp only
              rw [show (i + ((a :: l').take 20).length : Nat) = min (i + (0 + 1) * 20) N from by
                rw [hbl]; omega]
          | j + 1 =>
            have hj' : j < (streamLoopClient backend N totalB fuel (i + 20)
                (acc ++ categorize_batch (backend (i / 20)) ((a :: l').take 20))
                ((a :: l').drop 20)).length := by
              simpa using Nat.succ_lt_succ_iff.mp (by simpa using hj)
            obtain ⟨hb, ht, hp⟩ := ihget j hj'
            rw [List.getElem_cons_succ]
            refine ⟨?_, ?_, ?_⟩
            · rw [hb]
              omega
            · rw [ht]
              congr 1
              omega
            · rw [hp]
              rw [show (i + 20) + (j + 1) * 20 = i + (j + 1 + 1) * 20 from by ring]

theorem streamLoopNoClient_spec (N totalB : Nat) (hN : 0 < N) :
    ∀ (fuel : Nat) (l : List Transaction) (i : Nat) (acc : List Transaction),
      l.length ≤ fuel → i = acc.length → i + l.length = N →
      (streamLoopNoClient N totalB fuel i acc l).length = (l.length + 19) / 20 ∧
      ∀ (j : Nat) (hj : j < (streamLoopNoClient N totalB fuel i acc l).length),
        (streamLoopNoClient N totalB fuel i acc l)[j].batch_number = i / 20 + j + 1 ∧
        (streamLoopNoClient N totalB fuel i acc l)[j].total_processed
          = min (i + (j + 1) * 20) N ∧
        (streamLoopNoClient N totalB fuel i acc l)[j].progress_percentage
          = min (((min (i + (j + 1) * 20) N : Nat) : ℚ) / (N : ℚ) * 100) 100 := by
  intro fuel
  induction fuel with
  | zero =>
    intro l i acc hf _ _
    have hl : l = [] := List.length_eq_zero.mp (Nat.le_zero.mp hf)
    subst hl
    exact ⟨rfl, fun j hj => absurd hj (by simp [streamLoopNoClient_nil])⟩
  | succ fuel ih =>
    intro l i acc hf hacc hsum
    match l with
    | [] => exact ⟨rfl, fun j hj => absurd hj (by simp [streamLoopNoClient_nil])⟩
    | a :: l' =>
      rw [streamLoopNoClient_cons]
      have hbl : ((a :: l').take 20).length = min 20 (a :: l').length := List.length_take 20 _
      have hal : (acc ++ ((a :: l').take 20).map fallback_categorize).length
          = i + min 20 (a :: l').length := by
        rw [List.length_append, List.length_map, hbl, hacc]
      have hminN : i + min 20 (a :: l').length = min (i + 1 * 20) N := by omega
      have hprog0 : min (((i + 20 : Nat) : ℚ) / (N : ℚ) * 100) 100
          = min (((min (i + (0 + 1) * 20) N : Nat) : ℚ) / (N : ℚ) * 100) 100 := by
        rw [show i + (0 + 1) * 20 = i + 20 from by ring]
        exact progress_sat hN i
      by_cases hL : (a :: l').length ≤ 20
      · have hdrop : (a :: l').drop 20 = [] := List.drop_eq_nil_of_le hL
        rw [hdrop, streamLoopNoClient_nil]
        have hL' : l'.length + 1 ≤ 20 := by simpa using hL
        refine ⟨by simp; omega, ?_⟩
        intro j hj
        have hj0 : j = 0 := by simpa using Nat.lt_one_iff.mp (by simpa using hj)
        subst hj0
        refine ⟨by simp, ?_, ?_⟩
        · rw [List.getElem_cons_zero]
          dsimp only
          rw [hal, hminN]
        · rw [List.getElem_cons_zero]
          dsimp only
          exact hprog0
      · have hfuel' : ((a :: l').drop 20).length ≤ fuel := by
          rw [List.length_drop]
          simp only [List.length_cons] at hf ⊢
          omega
        have hacc' : i + 20 = (acc ++ ((a :: l').take 20).map fallback_categorize).length := by
          rw [hal]
          omega
        have hsum' : (i + 20) + ((a :: l').drop 20).length = N := by
          rw [List.length_drop]
          simp only [List.length_cons] at hsum ⊢
          omega
        obtain ⟨ihlen, ihget⟩ := ih ((a :: l').drop 20) (i + 20)
          (acc ++ ((a :: l').take 20).map fallback_categorize) hfuel' hacc' hsum'
        constructor
        · rw [List.length_cons, ihlen, List.length_drop]
          simp only [List.length_cons] at hL ⊢
          omega
        · intro j hj
          match j with
          | 0 =>
            refine ⟨by simp, ?_, ?_⟩
            · rw [List.getElem_cons_zero]
              dsimp only
              rw [hal, hminN]
            · rw [List.getElem_cons_zero]
              dsimp only
              exact hprog0
          | j + 1 =>
            have hj' : j < (streamLoopNoClient N totalB fuel (i + 20)
                (acc ++ ((a :: l').take 20).map fallback_categorize)
                ((a :: l').drop 20)).length := by
              simpa using Nat.succ_lt_succ_iff.mp (by simpa using hj)
            obtain ⟨hb, ht, hp⟩ := ihget j hj'
            rw [List.getElem_cons_succ]
            refine ⟨?_, ?_, ?_⟩
            · rw [hb]
              omega
            · rw [ht]
              congr 1
              omega
            · rw [hp]
              rw [show (i + 20) + (j + 1) * 20 = i + (j + 1 + 1) * 20 from by ring]

theorem progress_full {N : Nat} (hN : 0 < N) :
    min (((N : Nat) : ℚ) / (N : ℚ) * 100) 100 = 100 := by
  have hNQ : (0 : ℚ) < (N : ℚ) := by exact_mod_cast hN
  rw [div_self (ne_of_gt hNQ), one_mul, min_self]

/-- Claim C8's event contract: exactly `ceil(N/20)` events in batch order,
event `k` carrying `batch_number = k` and the cumulative processed count,
`progress_percentage = min(processed/total*100, 100)`, non-decreasing across
events, with the final event reporting 100. -/
def StreamingEventSpec (transactions : List Transaction) (evs : List StreamEvent) : Prop :=
  evs.length = (transactions.length + 19) / 20 ∧
  (∀ (j : Nat) (hj : j < evs.length),
    (evs.get ⟨j, hj⟩).batch_number = j + 1 ∧
    (evs.get ⟨j, hj⟩).total_processed = min ((j + 1) * 20) transactions.length ∧
    (evs.get ⟨j, hj⟩).progress_percentage
      = min ((((evs.get ⟨j, hj⟩).total_processed : Nat) : ℚ)
          / (transactions.length : ℚ) * 100) 100) ∧
  (∀ (j1 j2 : Nat) (h1 : j1 < evs.length) (h2 : j2 < evs.length), j1 ≤ j2 →
    (evs.get ⟨j1, h1⟩).progress_percentage ≤ (evs.get ⟨j2, h2⟩).progress_percentage) ∧
  ∀ (h0 : 0 < evs.length),
    (evs.get ⟨evs.length - 1, by omega⟩).progress_percentage = 100

/-- C8: for every non-empty transaction sequence, with or without a client
and for every backend behaviour, the streaming orchestrator emits exactly
`ceil(N/20)` events in batch order, event `k` carries `batch_number = k` and
the cumulative count processed so far (`min(20k, N)`), its progress is
`min(processed/total*100, 100)`, progress is non-decreasing across events,
and the final event reports 100. -/
theorem streaming_progress (clientAvailable : Bool)
    (backend : Nat → Option (List CategorizationResult)) (transactions : List Transaction)
    (hne : transactions ≠ []) :
    StreamingEventSpec transactions
      (categorize_transactions_streaming clientAvailable backend transactions) := by
  have hN : 0 < transactions.length := List.length_pos.mpr hne
  obtain ⟨hlen, hget⟩ :
      (categorize_transactions_streaming clientAvailable backend transactions).length
          = (transactions.length + 19) / 20 ∧
      ∀ (j : Nat)
        (hj : j < (categorize_transactions_streaming clientAvailable backend transactions).length),
        (categorize_transactions_streaming clientAvailable backend transactions)[j].batch_number
            = 0 / 20 + j + 1 ∧
        (categorize_transactions_streaming clientAvailable backend transactions)[j].total_processed
            = min (0 + (j + 1) * 20) transactions.length ∧
        (categorize_transactions_streaming clientAvailable backend transactions)[j].progress_percentage
            = min (((min (0 + (j + 1) * 20) transactions.length : Nat) : ℚ)
                / (transactions.length : ℚ) * 100) 100 := by
    cases clientAvailable
    · exact streamLoopNoClient_spec transactions.length (totalBatchesOf transactions.length) hN
        transactions.length transactions 0 [] le_rfl rfl (by simp)
    · exact streamLoopClient_spec backend transactions.length (totalBatchesOf transactions.length)
        transactions.length transactions 0 [] le_rfl rfl (by simp)
  refine ⟨hlen, ?_, ?_, ?_⟩
  · intro j hj
    obtain ⟨hb, ht, hp⟩ := hget j hj
    refine ⟨?_, ?_, ?_⟩
    · rw [List.get_eq_getElem, hb]
      simp
    · rw [List.get_eq_getElem, ht]
      congr 1
      omega
    · rw [List.get_eq_getElem, hp, ht]
  · intro j1 j2 h1 h2 hle
    obtain ⟨_, _, hp1⟩ := hget j1 h1
    obtain ⟨_, _, hp2⟩ := hget j2 h2
    rw [List.get_eq_getElem, List.get_eq_getElem, hp1, hp2]
    have hm : min (0 + (j1 + 1) * 20) transactions.length
        ≤ min (0 + (j2 + 1) * 20) transactions.length := by omega
    have hmq : ((min (0 + (j1 + 1) * 20) transactions.length : Nat) : ℚ)
        ≤ ((min (0 + (j2 + 1) * 20) transactions.length : Nat) : ℚ) := by exact_mod_cast hm
    have hNQ : (0 : ℚ) < (transactions.length : ℚ) := by exact_mod_cast hN
    refine min_le_min ?_ le_rfl
    refine mul_le_mul_of_nonneg_right ?_ (by norm_num)
    exact (div_le_div_iff_of_pos_right hNQ).mpr hmq
  · intro h0
    obtain ⟨_, _, hp⟩ := hget
      ((categorize_transactions_streaming clientAvailable backend transactions).length - 1)
      (by omega)
    rw [List.get_eq_getElem, hp]
    have hfin : min
        (0 + (((categorize_transactions_streaming clientAvailable backend transactions).length
          - 1) + 1) * 20) transactions.length = transactions.length := by
      omega
    rw [hfin, progress_full hN]

/-- Witness for C8 at a concrete one-batch input on the no-client path. -/
theorem streaming_progress_witness :
    StreamingEventSpec [⟨"2024-01-01", "salary", 1000, none, none, none⟩]
      (categorize_transactions_streaming false (fun _ => none)
        [⟨"2024-01-01", "salary", 1000, none, none, none⟩]) :=
  streaming_progress false (fun _ => none)
    [⟨"2024-01-01", "salary", 1000, none, none, none⟩] (by decide)

end Finanalyser
